import Mathlib

/-!
Verification of the X-ray emissivity integration core of `yt_Xray/Xray_field.py`.

The numerical arrays of the Python code (numpy / yt `YTArray`) are modelled as
`List ℚ` (exact rational arithmetic stands in for IEEE floats; none of the
verified properties depend on rounding).  Fallible code paths (the
`EnergyBoundsException` raise, the `my_dE[0]` index error on an empty slice,
the `getattr` attribute lookup) are modelled with `Except`.  The yt linear
interpolator objects, whose construction closes the `get_interpolator` method,
are represented by an `Interpolator` value carrying the (log-space, hence real)
table together with the grid bounds.
-/

/-- Python slice `l[i:j]` for `0 ≤ i ≤ j` (numpy 1-D slicing on the arrays
used here always has nonnegative, in-order indices). -/
def pySlice {α : Type} (l : List α) (i j : ℕ) : List α :=
  (l.drop i).take (j - i)

/-- In-place `my_dE[0] -= x` on a nonempty list (`[]` is passed through; the
caller models Python's `IndexError` before reaching this point). -/
def subFirst : List ℚ → ℚ → List ℚ
  | [], _ => []
  | a :: t, x => (a - x) :: t

/-- In-place `my_dE[-1] -= x` on a nonempty list (`[]` is passed through). -/
def subLast : List ℚ → ℚ → List ℚ
  | [], _ => []
  | [a], x => [a - x]
  | a :: b :: t, x => a :: subLast (b :: t) x

/-- Elementwise product followed by a sum over the (last) axis:
`(data[..., e_is:e_ie] * my_dE).sum(axis=-1)` at one grid node. -/
def dot (a b : List ℚ) : ℚ :=
  (List.zipWith (· * ·) a b).sum

/-- `np.diff(self.ebin)` : `dE[i] = E[i+1] - E[i]`. -/
def npDiff (l : List ℚ) : List ℚ :=
  List.zipWith (· - ·) l.tail l

/-- Conversion factor used by `.to("erg")` on a keV quantity:
1 keV = 1.602176634e-9 erg. -/
def keV_in_erg : ℚ := 1602176634 / 10 ^ 18

/-- `self.emid = 0.5 * (self.ebin[1:] + self.ebin[:-1]).to("erg")` :
bin midpoints in keV, converted to erg. -/
def npMid (l : List ℚ) : List ℚ :=
  (List.zipWith (fun a b => (1 / 2) * (a + b)) l.tail l).map (· * keV_in_erg)

/-- `np.digitize(x, bins)` for (strictly) increasing `bins`: the number of bin
edges that are `≤ x`, i.e. the index `i` with `bins[i-1] ≤ x < bins[i]`. -/
def npDigitize (x : ℚ) (bins : List ℚ) : ℕ :=
  bins.countP (fun b => decide (b ≤ x))

/-- `np.clip(x, lo, hi)` on integers. -/
def npClip (x lo hi : ℤ) : ℤ :=
  max lo (min x hi)

/-- Lines 110-112: `e_is, e_ie = np.digitize([e_min, e_max], self.ebin)`,
`e_is = np.clip(e_is - 1, 0, self.ebin.size - 1)`,
`e_ie = np.clip(e_ie, 0, self.ebin.size - 1)` (rest-frame energies). -/
def bracket (ebin : List ℚ) (eMin eMax : ℚ) : ℕ × ℕ :=
  ((npClip ((npDigitize eMin ebin : ℤ) - 1) 0 ((ebin.length : ℤ) - 1)).toNat,
   (npClip (npDigitize eMax ebin : ℤ) 0 ((ebin.length : ℤ) - 1)).toNat)

/-- Lines 114-117: `my_dE = self.dE[e_is:e_ie].copy()`, then clip the edge
bins: `my_dE[0] -= e_min - self.ebin[e_is]`, `my_dE[-1] -= self.ebin[e_ie] - e_max`. -/
def clippedWidths (ebin dE : List ℚ) (eMin eMax : ℚ) : List ℚ :=
  let p := bracket ebin eMin eMax
  subLast (subFirst (pySlice dE p.1 p.2) (eMin - ebin.getD p.1 0))
    (ebin.getD p.2 0 - eMax)

/-- Line 119 at one grid node: `(data[..., e_is:e_ie] * my_dE).sum(axis=-1)`
with `my_dE` the clipped width vector. -/
def nodeIntegral (vals ebin dE : List ℚ) (eMin eMax : ℚ) : ℚ :=
  let p := bracket ebin eMin eMax
  dot (pySlice vals p.1 p.2) (clippedWidths ebin dE eMin eMax)

/-- The exact integral of the piecewise-constant tabulated emissivity over the
band `[a, b]`: each bin contributes its value times the length of the overlap
of the bin with the band.  This is the specification-side definition that the
code's clipped sum is compared against. -/
def bandIntegral (vals ebin : List ℚ) (a b : ℚ) : ℚ :=
  ∑ j ∈ Finset.range vals.length,
    vals.getD j 0 * max 0 (min b (ebin.getD (j + 1) 0) - max a (ebin.getD j 0))

/-- A tabulated quantity on the temperature grid (`ndim == 2` data, one energy
list per `log_T` node) or on the density × temperature grid (`ndim == 3` data,
outer index `log_nH`, inner index `log_T`). -/
inductive Grid (α : Type) where
  | one : List α → Grid α
  | two : List (List α) → Grid α
deriving DecidableEq

def Grid.map {α β : Type} (f : α → β) : Grid α → Grid β
  | .one l => .one (l.map f)
  | .two l => .two (l.map (List.map f))

/-- All grid nodes, flattened. -/
def Grid.nodes {α : Type} : Grid α → List α
  | .one l => l
  | .two l => l.flatten

/-- The `data_type` argument of `get_interpolator` ("primordial" or "metals"). -/
inductive EmissKind where
  | primordial
  | metals
deriving DecidableEq

/-- The exceptional exits of `get_interpolator`:
`EnergyBoundsException(self.ebin[0], self.ebin[-1])` (line 109), the
`AttributeError` of `getattr` when the metals table was not loaded (line 100),
and the `IndexError` of `my_dE[0]` on an empty slice (line 116). -/
inductive XrayError where
  | energyBounds (lower upper : ℚ)
  | attributeNotFound
  | indexOutOfRange
deriving DecidableEq

instance instDecEqExcept {ε α : Type} [DecidableEq ε] [DecidableEq α] :
    DecidableEq (Except ε α) := fun x y =>
  match x, y with
  | .ok a, .ok b =>
    if h : a = b then .isTrue (by rw [h])
    else .isFalse (fun hc => h (by cases hc; rfl))
  | .error e, .error f =>
    if h : e = f then .isTrue (by rw [h])
    else .isFalse (fun hc => h (by cases hc; rfl))
  | .ok _, .error _ => .isFalse (fun hc => Except.noConfusion hc)
  | .error _, .ok _ => .isFalse (fun hc => Except.noConfusion hc)

/-- State of an `XrayEmissivityIntegrator` after `__init__` (the HDF5 read
itself is external I/O; the loaded arrays are the fields). -/
structure XrayEmissivityIntegrator where
  log_T : List ℚ
  log_nH : Option (List ℚ)
  emissivity_primordial : Grid (List ℚ)
  emissivity_metals : Option (Grid (List ℚ))
  ebin : List ℚ
  dE : List ℚ
  emid : List ℚ
  redshift : ℚ
deriving DecidableEq

/-- `__init__` (lines 82-97): store the arrays and precompute
`self.dE = np.diff(self.ebin)` and `self.emid` (midpoints in erg). -/
def XrayEmissivityIntegrator.init (log_T : List ℚ) (log_nH : Option (List ℚ))
    (emissivity_primordial : Grid (List ℚ))
    (emissivity_metals : Option (Grid (List ℚ)))
    (ebin : List ℚ) (redshift : ℚ) : XrayEmissivityIntegrator :=
  { log_T := log_T
    log_nH := log_nH
    emissivity_primordial := emissivity_primordial
    emissivity_metals := emissivity_metals
    ebin := ebin
    dE := npDiff ebin
    emid := npMid ebin
    redshift := redshift }

/-- Lines 99-119 of `get_interpolator`: select the table, optionally divide by
the bin midpoint energies (photon-count mode), redshift the requested band,
check the energy bounds, bracket the band, clip the edge-bin widths and sum
over the energy axis.  Returns the integrated (pre-log) surface. -/
def get_surface (self : XrayEmissivityIntegrator) (data_type : EmissKind)
    (e_min e_max : ℚ) (energy : Bool) : Except XrayError (Grid ℚ) :=
  let dataOpt : Option (Grid (List ℚ)) :=
    match data_type with
    | .primordial => some self.emissivity_primordial
    | .metals => self.emissivity_metals
  match dataOpt with
  | none => .error .attributeNotFound
  | some data0 =>
    let data := if energy then data0
      else data0.map (fun v => List.zipWith (· / ·) v self.emid)
    let eMin := e_min * (1 + self.redshift)
    let eMax := e_max * (1 + self.redshift)
    if (eMin - self.ebin.getD 0 0) / eMin < -(1 / 1000) ∨
        (eMax - self.ebin.getLastD 0) / eMax > 1 / 1000 then
      .error (.energyBounds (self.ebin.getD 0 0) (self.ebin.getLastD 0))
    else
      let p := bracket self.ebin eMin eMax
      match pySlice self.dE p.1 p.2 with
      | [] => .error .indexOutOfRange
      | _ :: _ =>
        .ok (data.map (fun vals => nodeIntegral vals self.ebin self.dE eMin eMax))

/-- The interpolator object returned by `get_interpolator`:
`UnilinearFieldInterpolator(table, [t0, t1], "log_T", truncate=True)` or
`BilinearFieldInterpolator(table, [n0, n1, t0, t1], ["log_nH", "log_T"],
truncate=True)`; the table holds `np.log10` of the integrated surface. -/
inductive Interpolator where
  | unilinear (table : List ℝ) (t0 t1 : ℚ) (truncate : Bool)
  | bilinear (table : List (List ℝ)) (n0 n1 t0 t1 : ℚ) (truncate : Bool)

/-- Lines 119-135: take `np.log10` of the integrated surface and wrap it in a
unilinear (`ndim == 2` data) or bilinear (`ndim == 3` data) interpolator over
the end points of the temperature (and density) grids. -/
noncomputable def get_interpolator (self : XrayEmissivityIntegrator)
    (data_type : EmissKind) (e_min e_max : ℚ) (energy : Bool) :
    Except XrayError Interpolator :=
  (get_surface self data_type e_min e_max energy).map (fun surf =>
    match surf with
    | .one s =>
      .unilinear (s.map fun q : ℚ => Real.logb 10 (q : ℝ))
        (self.log_T.getD 0 0) (self.log_T.getLastD 0) true
    | .two s =>
      .bilinear (s.map (List.map fun q : ℚ => Real.logb 10 (q : ℝ)))
        ((self.log_nH.getD []).getD 0 0) ((self.log_nH.getD []).getLastD 0)
        (self.log_T.getD 0 0) (self.log_T.getLastD 0) true)

/-- The method call as a state transformer: every Python statement of
`get_interpolator` binds a method-local name only (`data` is a fresh array
produced by `/`, the rest-frame `e_min`/`e_max` are new `YTQuantity` objects,
`my_dE` is an explicit `.copy()` so its in-place `-=` updates touch only the
copy), hence the object's attributes after the call are those before it. -/
noncomputable def get_interpolator_st (self : XrayEmissivityIntegrator)
    (data_type : EmissKind) (e_min e_max : ℚ) (energy : Bool) :
    Except XrayError Interpolator × XrayEmissivityIntegrator :=
  (get_interpolator self data_type e_min e_max energy,
   { log_T := self.log_T
     log_nH := self.log_nH
     emissivity_primordial := self.emissivity_primordial
     emissivity_metals := self.emissivity_metals
     ebin := self.ebin
     dE := self.dE
     emid := self.emid
     redshift := self.redshift })

/-- Clamp of a query coordinate to the training interval. -/
noncomputable def clampR (lo hi x : ℝ) : ℝ := max lo (min x hi)

/-- Modelled from the spec: yt's `UnilinearFieldInterpolator.__call__` is not
part of this repository (it lives in the external yt library); the spec
describes it as linear interpolation over the uniform grid spanning
`[x0, x1]` with one node per table entry, with out-of-grid queries clamped to
the nearest boundary point (truncate mode), never extrapolated or rejected. -/
noncomputable def unilinEval (table : List ℝ) (x0 x1 : ℚ) (x : ℝ) : ℝ :=
  let n := table.length
  if n = 0 then 0
  else if n = 1 then table.getD 0 0
  else
    let step := ((x1 : ℝ) - (x0 : ℝ)) / ((n : ℝ) - 1)
    let xc := clampR (x0 : ℝ) (x1 : ℝ) x
    let i := min (⌊(xc - (x0 : ℝ)) / step⌋).toNat (n - 2)
    let xp := ((xc - (x0 : ℝ)) - (i : ℝ) * step) / step
    table.getD i 0 * (1 - xp) + table.getD (i + 1) 0 * xp

/-- Modelled from the spec: yt's `BilinearFieldInterpolator.__call__` (also
external) as the composition of per-axis clamped linear interpolation: each
row (fixed `log_nH` node) is interpolated at the `log_T` query, and the
resulting column is interpolated at the `log_nH` query. -/
noncomputable def bilinEval (table : List (List ℝ)) (n0 n1 t0 t1 : ℚ)
    (x y : ℝ) : ℝ :=
  unilinEval (table.map (fun row => unilinEval row t0 t1 y)) n0 n1 x

/-- Evaluation of the returned interpolator at the point
`{"log_nH": x, "log_T": y}`; the unilinear interpolator reads only `log_T`. -/
noncomputable def Interpolator.evalAt : Interpolator → ℝ → ℝ → ℝ
  | .unilinear table t0 t1 _, _, y => unilinEval table t0 t1 y
  | .bilinear table n0 n1 t0 t1 _, x, y => bilinEval table n0 n1 t0 t1 x y

/-- A numpy float that may be NaN: interpolating outside the valid physical
domain yields NaN, modelled as `none`. -/
abbrev FVal := Option ℝ

/-- `np.power(10, x)`: NaN propagates. -/
noncomputable def fpow10 : FVal → FVal
  | some x => some ((10 : ℝ) ^ x)
  | none => none

/-- Elementwise `+`: NaN propagates. -/
noncomputable def fadd : FVal → FVal → FVal
  | some a, some b => some (a + b)
  | _, _ => none

/-- Scaling by the metallicity: NaN propagates. -/
noncomputable def fscale (z : ℝ) : FVal → FVal
  | some a => some (z * a)
  | none => none

/-- `my_emissivity[np.isnan(my_emissivity)] = 0` at one cell. -/
def fixnan (v : FVal) : ℝ := v.getD 0

/-- A unit-tagged array (`YTArray(values, units)`). -/
structure YTArr where
  values : List ℝ
  units : String

/-- Lines 221-241, the per-cell field assembly `_emissivity_field`:
`my_emissivity = np.power(10, em_0(dd))`, plus
`my_Z * np.power(10, em_Z(dd))` when metals are requested, NaN entries
replaced by zero, then multiplied by `norm_field = (10**lognH)**2` and tagged
with `erg*cm**3/s`.  The interpolators `em_0`, `em_Z` are the functions built
by `get_interpolator`; they are parameters here. -/
noncomputable def emissivity_field (em_0 em_Z : ℝ → ℝ → FVal)
    (use_metallicity : Bool) (lognH logT Z : List ℝ) : YTArr :=
  { values := (List.range lognH.length).map (fun i =>
      let base := fpow10 (em_0 (lognH.getD i 0) (logT.getD i 0))
      let my_emissivity :=
        if use_metallicity then
          fadd base (fscale (Z.getD i 0) (fpow10 (em_Z (lognH.getD i 0) (logT.getD i 0))))
        else base
      ((10 : ℝ) ^ lognH.getD i 0) ^ 2 * fixnan my_emissivity)
    units := "erg*cm**3/s" }

/-- Lines 195-254 of `calculate_xray_emissivity`: any table type other than
"cloudy" prints a message and returns `None`; otherwise the per-cell arrays
are read from the catalog, `logT = np.log10(Temperature)` is formed, and the
assembled emissivity field is returned.  Loading the emissivity table from
disk is external I/O, so the interpolators stand in for the constructed
`XrayEmissivityIntegrator`. -/
noncomputable def calculate_xray_emissivity
    (lognH Temperature gas_metallicity_host : List ℝ)
    (use_metallicity : Bool) (table_type : String)
    (em_0 em_Z : ℝ → ℝ → FVal) : Option YTArr :=
  if table_type ≠ "cloudy" then none
  else
    let logT := Temperature.map (Real.logb 10)
    some (emissivity_field em_0 em_Z use_metallicity lognH logT gas_metallicity_host)

/-! ### List-level facts about the numpy primitives -/

lemma pySlice_length {α : Type} (l : List α) (i j : ℕ) :
    (pySlice l i j).length = min (j - i) (l.length - i) := by
  simp [pySlice]

lemma pySlice_getD (l : List ℚ) (i j t : ℕ) (ht : t < j - i) :
    (pySlice l i j).getD t 0 = l.getD (i + t) 0 := by
  simp only [pySlice, List.getD_eq_getElem?_getD, List.getElem?_take, if_pos ht,
    List.getElem?_drop]

lemma subFirst_length (l : List ℚ) (x : ℚ) : (subFirst l x).length = l.length := by
  cases l <;> rfl

lemma subLast_length (l : List ℚ) (x : ℚ) : (subLast l x).length = l.length := by
  induction l with
  | nil => rfl
  | cons a t ih =>
    cases t with
    | nil => rfl
    | cons b u => simpa [subLast] using ih

lemma subFirst_getD (l : List ℚ) (x : ℚ) (t : ℕ) (hl : l ≠ []) :
    (subFirst l x).getD t 0 = l.getD t 0 - (if t = 0 then x else 0) := by
  cases l with
  | nil => exact absurd rfl hl
  | cons a u =>
    cases t with
    | zero => simp [subFirst]
    | succ t => simp [subFirst]

lemma subLast_getD (l : List ℚ) (x : ℚ) (t : ℕ) (ht : t < l.length) :
    (subLast l x).getD t 0 = l.getD t 0 - (if t = l.length - 1 then x else 0) := by
  induction l generalizing t with
  | nil => simp at ht
  | cons a u ih =>
    cases u with
    | nil =>
      have h0 : t = 0 := by simp at ht; omega
      subst h0
      simp [subLast]
    | cons b v =>
      cases t with
      | zero => simp [subLast]
      | succ t =>
        have ht' : t < (b :: v).length := by simpa using ht
        have := ih t ht'
        simpa [subLast, Nat.succ_eq_add_one] using this

lemma npDiff_length (l : List ℚ) : (npDiff l).length = l.length - 1 := by
  simp [npDiff]

lemma npDiff_getD (l : List ℚ) (t : ℕ) (ht : t + 1 < l.length) :
    (npDiff l).getD t 0 = l.getD (t + 1) 0 - l.getD t 0 := by
  have htl : t < l.tail.length := by
    simp only [List.length_tail]
    omega
  have hlen : t < (npDiff l).length := by
    rw [npDiff_length]; omega
  rw [List.getD_eq_getElem _ _ hlen, List.getD_eq_getElem _ _ (by omega : t < l.length),
    List.getD_eq_getElem _ _ ht]
  simp only [npDiff]
  rw [List.getElem_zipWith]
  congr 1
  rw [List.getElem_tail]

lemma dot_eq_sum (a b : List ℚ) :
    dot a b = ∑ t ∈ Finset.range (min a.length b.length), a.getD t 0 * b.getD t 0 := by
  induction a generalizing b with
  | nil => simp [dot]
  | cons x u ih =>
    cases b with
    | nil => simp [dot]
    | cons y v =>
      have : dot (x :: u) (y :: v) = x * y + dot u v := by simp [dot]
      rw [this, ih v]
      rw [List.length_cons, List.length_cons, Nat.succ_min_succ (u.length) (v.length),
        Finset.sum_range_succ']
      simp [add_comm]

/-! ### Facts about `np.digitize` on a strictly increasing edge list -/

lemma getLastD_eq_getD (l : List ℚ) : l.getLastD 0 = l.getD (l.length - 1) 0 := by
  cases l with
  | nil => rfl
  | cons a t =>
    rw [List.getLastD_eq_getLast?, List.getLast?_eq_getElem?]
    simp [List.getD_eq_getElem?_getD]

lemma getD_strict_mono (E : List ℚ) (hs : E.Pairwise (· < ·)) {i j : ℕ}
    (hij : i < j) (hj : j < E.length) : E.getD i 0 < E.getD j 0 := by
  have hi : i < E.length := lt_trans hij hj
  rw [List.getD_eq_getElem _ _ hi, List.getD_eq_getElem _ _ hj]
  exact List.pairwise_iff_get.mp hs ⟨i, hi⟩ ⟨j, hj⟩ hij

lemma getD_mono (E : List ℚ) (hs : E.Pairwise (· < ·)) {i j : ℕ}
    (hij : i ≤ j) (hj : j < E.length) : E.getD i 0 ≤ E.getD j 0 := by
  rcases Nat.lt_or_ge i j with h | h
  · exact le_of_lt (getD_strict_mono E hs h hj)
  · have : i = j := le_antisymm hij h
    rw [this]

lemma npDigitize_le_length (x : ℚ) (E : List ℚ) : npDigitize x E ≤ E.length :=
  List.countP_le_length _

lemma npDigitize_pos (x : ℚ) (E : List ℚ) (hE : E ≠ []) (h : E.getD 0 0 ≤ x) :
    0 < npDigitize x E := by
  cases E with
  | nil => exact absurd rfl hE
  | cons e t =>
    apply List.countP_pos_iff.mpr
    exact ⟨e, List.mem_cons_self e t, by simpa using h⟩

lemma npDigitize_lt_length (x : ℚ) (E : List ℚ) (hE : E ≠ [])
    (h : x < E.getLastD 0) : npDigitize x E < E.length := by
  rcases Nat.lt_or_ge (npDigitize x E) E.length with hlt | hge
  · exact hlt
  · exfalso
    have heq : npDigitize x E = E.length :=
      le_antisymm (npDigitize_le_length x E) hge
    have hall : ∀ a ∈ E, decide (a ≤ x) = true := List.countP_eq_length.mp heq
    have hmem : E.getD (E.length - 1) 0 ∈ E := by
      have hlen : E.length - 1 < E.length := by
        cases E with
        | nil => exact absurd rfl hE
        | cons e t => simp
      rw [List.getD_eq_getElem _ _ hlen]
      exact List.getElem_mem hlen
    have := hall _ hmem
    rw [getLastD_eq_getD, List.getD_eq_getElem?_getD] at h
    simp at this
    linarith

lemma npDigitize_eq_length (x : ℚ) (E : List ℚ) (hs : E.Pairwise (· < ·))
    (h : E.getLastD 0 ≤ x) : npDigitize x E = E.length := by
  apply List.countP_eq_length.mpr
  intro a ha
  rcases List.mem_iff_get.mp ha with ⟨⟨i, hi⟩, rfl⟩
  have h1 : E.get ⟨i, hi⟩ = E.getD i 0 := (List.getD_eq_getElem _ _ hi).symm
  have h2 : E.getD i 0 ≤ E.getD (E.length - 1) 0 :=
    getD_mono E hs (by omega) (by omega)
  rw [getLastD_eq_getD] at h
  simp only [h1, decide_eq_true_eq]
  linarith

lemma npDigitize_mono (x y : ℚ) (E : List ℚ) (hxy : x ≤ y) :
    npDigitize x E ≤ npDigitize y E := by
  apply List.countP_mono_left
  intro a _ ha
  simp only [decide_eq_true_eq] at ha ⊢
  linarith

lemma getD_le_iff (E : List ℚ) (hs : E.Pairwise (· < ·)) (x : ℚ) :
    ∀ i, i < E.length → (E.getD i 0 ≤ x ↔ i < npDigitize x E) := by
  induction E with
  | nil => intro i hi; simp at hi
  | cons e t ih =>
    intro i hi
    have hpair : ∀ y ∈ t, e < y := (List.pairwise_cons.mp hs).1
    have hst : t.Pairwise (· < ·) := (List.pairwise_cons.mp hs).2
    cases i with
    | zero =>
      simp only [List.getD_cons_zero]
      unfold npDigitize
      rw [List.countP_cons]
      by_cases he : e ≤ x
      · have hrhs : 0 < t.countP (fun b => decide (b ≤ x)) +
            (if decide (e ≤ x) = true then 1 else 0) := by
          simp [he]
        exact iff_of_true he hrhs
      · have hz : t.countP (fun b => decide (b ≤ x)) = 0 := by
          apply List.countP_eq_zero.mpr
          intro a ha
          have hea : e < a := hpair a ha
          simp only [decide_eq_true_eq]
          intro hax
          exact he (le_trans (le_of_lt hea) hax)
        have hrhs : ¬ 0 < t.countP (fun b => decide (b ≤ x)) +
            (if decide (e ≤ x) = true then 1 else 0) := by
          simp [he, hz]
        exact iff_of_false he hrhs
    | succ i =>
      have hit : i < t.length := by simpa using hi
      rw [List.getD_cons_succ]
      unfold npDigitize
      rw [List.countP_cons]
      by_cases he : e ≤ x
      · have hite : (if decide (e ≤ x) = true then 1 else 0) = 1 := by simp [he]
        rw [hite, ih hst i hit]
        unfold npDigitize
        omega
      · have hz : t.countP (fun b => decide (b ≤ x)) = 0 := by
          apply List.countP_eq_zero.mpr
          intro a ha
          have hea : e < a := hpair a ha
          simp only [decide_eq_true_eq]
          intro hax
          exact he (le_trans (le_of_lt hea) hax)
        have hfalse : ¬ t.getD i 0 ≤ x := by
          have hmem : t.getD i 0 ∈ t := by
            rw [List.getD_eq_getElem _ _ hit]
            exact List.getElem_mem hit
          have het : e < t.getD i 0 := hpair _ hmem
          intro hax
          exact he (le_trans (le_of_lt het) hax)
        have hrhs : ¬ i + 1 < t.countP (fun b => decide (b ≤ x)) +
            (if decide (e ≤ x) = true then 1 else 0) := by
          simp [he, hz]
        exact iff_of_false hfalse hrhs

/-! ### Bracketing the requested band -/

lemma bracket_spec (E : List ℚ) (a b : ℚ)
    (h1 : 1 ≤ npDigitize a E) (h3 : npDigitize b E < E.length)
    (h2 : npDigitize a E ≤ npDigitize b E) :
    bracket E a b = (npDigitize a E - 1, npDigitize b E) := by
  unfold bracket npClip
  simp only [Prod.mk.injEq]
  constructor <;> omega

lemma nodeIntegral_def (vals ebin dE : List ℚ) (eMin eMax : ℚ) :
    nodeIntegral vals ebin dE eMin eMax
      = dot (pySlice vals (bracket ebin eMin eMax).1 (bracket ebin eMin eMax).2)
          (clippedWidths ebin dE eMin eMax) := rfl

lemma clippedWidths_def (ebin dE : List ℚ) (eMin eMax : ℚ) :
    clippedWidths ebin dE eMin eMax
      = subLast
          (subFirst (pySlice dE (bracket ebin eMin eMax).1 (bracket ebin eMin eMax).2)
            (eMin - ebin.getD (bracket ebin eMin eMax).1 0))
          (ebin.getD (bracket ebin eMin eMax).2 0 - eMax) := rfl

/-- The central correctness lemma for the band integration of lines 110-119:
for a strictly increasing edge list and a rest-frame band lying strictly
inside the tabulated range (and strictly below the last edge), the clipped
dot product computed by the code equals the exact integral of the
piecewise-constant tabulated values over the band. -/
lemma nodeIntegral_eq_bandIntegral (vals E : List ℚ) (a b : ℚ)
    (hs : E.Pairwise (· < ·)) (hlen : vals.length + 1 = E.length)
    (hlo : E.getD 0 0 < a) (hab : a ≤ b) (hhi : b < E.getLastD 0) :
    nodeIntegral vals E (npDiff E) a b = bandIntegral vals E a b := by
  have hEne : E ≠ [] := by
    intro h
    rw [h] at hlen
    simp at hlen
  set N := vals.length with hN
  have hElen : E.length = N + 1 := hlen.symm
  set d1 := npDigitize a E with hd1
  set d2 := npDigitize b E with hd2
  have h1 : 1 ≤ d1 := npDigitize_pos a E hEne (le_of_lt hlo)
  have h3 : d2 < E.length := npDigitize_lt_length b E hEne hhi
  have h2 : d1 ≤ d2 := npDigitize_mono a b E hab
  set i0 := d1 - 1 with hi0
  have hbr : bracket E a b = (i0, d2) := bracket_spec E a b h1 h3 h2
  set m := d2 - i0 with hm
  have hm1 : 1 ≤ m := by omega
  have hd1lt : d1 < E.length := lt_of_le_of_lt h2 h3
  -- Position of the band relative to the bracketing edges.
  have hA : E.getD i0 0 ≤ a := (getD_le_iff E hs a i0 (by omega)).mpr (by omega)
  have hB : a < E.getD d1 0 := by
    by_contra hc
    push_neg at hc
    have := (getD_le_iff E hs a d1 hd1lt).mp hc
    omega
  have hC : E.getD (d2 - 1) 0 ≤ b := (getD_le_iff E hs b (d2 - 1) (by omega)).mpr (by omega)
  have hD : b < E.getD d2 0 := by
    by_contra hc
    push_neg at hc
    have := (getD_le_iff E hs b d2 h3).mp hc
    omega
  -- Lengths.
  have hslice_len : (pySlice vals i0 d2).length = m := by
    rw [pySlice_length]
    omega
  have hdE_len : (npDiff E).length = N := by
    rw [npDiff_length]
    omega
  have hwslice_len : (pySlice (npDiff E) i0 d2).length = m := by
    rw [pySlice_length, hdE_len]
    omega
  have hwne : pySlice (npDiff E) i0 d2 ≠ [] := by
    apply List.ne_nil_of_length_pos
    rw [hwslice_len]
    omega
  -- Entrywise description of the clipped width vector.
  have hW_getD : ∀ t, t < m →
      (clippedWidths E (npDiff E) a b).getD t 0
        = (E.getD (i0 + t + 1) 0 - E.getD (i0 + t) 0)
          - (if t = 0 then a - E.getD i0 0 else 0)
          - (if t = m - 1 then E.getD d2 0 - b else 0) := by
    intro t ht
    rw [clippedWidths_def, hbr]
    simp only
    rw [subLast_getD _ _ t (by rw [subFirst_length, hwslice_len]; exact ht)]
    rw [subFirst_length, hwslice_len]
    rw [subFirst_getD _ _ t hwne]
    rw [pySlice_getD _ _ _ t (by omega)]
    rw [npDiff_getD _ _ (by omega)]
  -- Each clipped width is exactly the overlap of its bin with the band.
  have hterm : ∀ t, t < m →
      (clippedWidths E (npDiff E) a b).getD t 0
        = max 0 (min b (E.getD (i0 + t + 1) 0) - max a (E.getD (i0 + t) 0)) := by
    intro t ht
    rw [hW_getD t ht]
    by_cases ht0 : t = 0
    · subst ht0
      by_cases htm : (0 : ℕ) = m - 1
      · -- the band sits in a single bin
        have hd2i : d2 = i0 + 1 := by omega
        rw [if_pos rfl, if_pos htm]
        have hmin : min b (E.getD (i0 + 0 + 1) 0) = b := by
          have : i0 + 0 + 1 = d2 := by omega
          rw [this]
          exact min_eq_left (le_of_lt hD)
        have hmax : max a (E.getD (i0 + 0) 0) = a := by
          have : i0 + 0 = i0 := by omega
          rw [this]
          exact max_eq_left hA
        rw [hmin, hmax, max_eq_right (by linarith : (0:ℚ) ≤ b - a)]
        have he : E.getD (i0 + 0 + 1) 0 = E.getD d2 0 := by
          have : i0 + 0 + 1 = d2 := by omega
          rw [this]
        rw [he]
        simp only [Nat.add_zero]
        ring
      · -- first of at least two bins
        rw [if_pos rfl, if_neg htm]
        have hup : E.getD (i0 + 0 + 1) 0 ≤ b := by
          refine le_trans ?_ hC
          exact getD_mono E hs (by omega) (by omega)
        have hd1i : i0 + 0 + 1 = d1 := by omega
        have hlow : a < E.getD (i0 + 0 + 1) 0 := by
          rw [hd1i]
          exact hB
        have hmin : min b (E.getD (i0 + 0 + 1) 0) = E.getD (i0 + 0 + 1) 0 :=
          min_eq_right hup
        have hmax : max a (E.getD (i0 + 0) 0) = a := max_eq_left hA
        rw [hmin, hmax]
        have houter : max 0 (E.getD (i0 + 0 + 1) 0 - a) = E.getD (i0 + 0 + 1) 0 - a :=
          max_eq_right (by linarith)
        rw [houter]
        simp only [Nat.add_zero]
        ring
    · by_cases htm : t = m - 1
      · -- last of at least two bins
        rw [if_neg ht0, if_pos htm]
        have hiu : i0 + t + 1 = d2 := by omega
        have hge : a ≤ E.getD (i0 + t) 0 := by
          refine le_trans (le_of_lt hB) ?_
          exact getD_mono E hs (by omega) (by omega)
        have hlt : E.getD (i0 + t) 0 ≤ b := by
          have : i0 + t = d2 - 1 := by omega
          rw [this]
          exact hC
        have hmin : min b (E.getD (i0 + t + 1) 0) = b := by
          rw [hiu]
          exact min_eq_left (le_of_lt hD)
        rw [hmin, max_eq_right hge,
          max_eq_right (by linarith : (0:ℚ) ≤ b - E.getD (i0 + t) 0)]
        have he : E.getD (i0 + t + 1) 0 = E.getD d2 0 := by rw [hiu]
        rw [he]
        ring
      · -- interior bin
        rw [if_neg ht0, if_neg htm]
        have hup : E.getD (i0 + t + 1) 0 ≤ b := by
          refine le_trans ?_ hC
          exact getD_mono E hs (by omega) (by omega)
        have hge : a ≤ E.getD (i0 + t) 0 := by
          refine le_trans (le_of_lt hB) ?_
          exact getD_mono E hs (by omega) (by omega)
        have hnn : (0:ℚ) ≤ E.getD (i0 + t + 1) 0 - E.getD (i0 + t) 0 := by
          have := getD_mono E hs (show i0 + t ≤ i0 + t + 1 by omega) (by omega)
          linarith
        rw [min_eq_right hup, max_eq_right hge, max_eq_right hnn]
        ring
  -- The computed dot product as an indexed sum.
  have hW_len : (clippedWidths E (npDiff E) a b).length = m := by
    rw [clippedWidths_def, hbr]
    simp only
    rw [subLast_length, subFirst_length, hwslice_len]
  have hL : nodeIntegral vals E (npDiff E) a b
      = ∑ t ∈ Finset.range m,
          vals.getD (i0 + t) 0 * (clippedWidths E (npDiff E) a b).getD t 0 := by
    rw [nodeIntegral_def, hbr]
    simp only
    rw [dot_eq_sum, hslice_len, hW_len, min_self]
    apply Finset.sum_congr rfl
    intro t ht
    rw [pySlice_getD vals i0 d2 t (by have := Finset.mem_range.mp ht; omega)]
  -- Bins entirely below the band contribute nothing.
  have hzero_low : ∀ j, j < i0 →
      vals.getD j 0 * max 0 (min b (E.getD (j + 1) 0) - max a (E.getD j 0)) = 0 := by
    intro j hj
    have hchain : min b (E.getD (j + 1) 0) - max a (E.getD j 0) ≤ 0 := by
      have h1' : min b (E.getD (j + 1) 0) ≤ E.getD (j + 1) 0 := min_le_right _ _
      have h2' : E.getD (j + 1) 0 ≤ E.getD i0 0 := getD_mono E hs (by omega) (by omega)
      have h3' : a ≤ max a (E.getD j 0) := le_max_left _ _
      linarith
    have : max 0 (min b (E.getD (j + 1) 0) - max a (E.getD j 0)) = 0 :=
      max_eq_left hchain
    rw [this, mul_zero]
  -- Bins entirely above the band contribute nothing.
  have hzero_high : ∀ j, d2 ≤ j → j < N →
      vals.getD j 0 * max 0 (min b (E.getD (j + 1) 0) - max a (E.getD j 0)) = 0 := by
    intro j hj hjN
    have hchain : min b (E.getD (j + 1) 0) - max a (E.getD j 0) ≤ 0 := by
      have h1' : min b (E.getD (j + 1) 0) ≤ b := min_le_left _ _
      have h2' : E.getD d2 0 ≤ E.getD j 0 := getD_mono E hs hj (by omega)
      have h3' : E.getD j 0 ≤ max a (E.getD j 0) := le_max_right _ _
      linarith
    have : max 0 (min b (E.getD (j + 1) 0) - max a (E.getD j 0)) = 0 :=
      max_eq_left hchain
    rw [this, mul_zero]
  -- Assemble the band integral.
  have hlow0 : ∑ j ∈ Finset.Ico 0 i0,
      vals.getD j 0 * max 0 (min b (E.getD (j + 1) 0) - max a (E.getD j 0)) = 0 := by
    apply Finset.sum_eq_zero
    intro j hj
    exact hzero_low j (Finset.mem_Ico.mp hj).2
  have hhigh0 : ∑ j ∈ Finset.Ico d2 N,
      vals.getD j 0 * max 0 (min b (E.getD (j + 1) 0) - max a (E.getD j 0)) = 0 := by
    apply Finset.sum_eq_zero
    intro j hj
    exact hzero_high j (Finset.mem_Ico.mp hj).1 (Finset.mem_Ico.mp hj).2
  have hsplit : ∑ j ∈ Finset.range N,
      vals.getD j 0 * max 0 (min b (E.getD (j + 1) 0) - max a (E.getD j 0))
      = ∑ j ∈ Finset.Ico 0 i0,
          vals.getD j 0 * max 0 (min b (E.getD (j + 1) 0) - max a (E.getD j 0))
        + ∑ j ∈ Finset.Ico i0 d2,
            vals.getD j 0 * max 0 (min b (E.getD (j + 1) 0) - max a (E.getD j 0))
        + ∑ j ∈ Finset.Ico d2 N,
            vals.getD j 0 * max 0 (min b (E.getD (j + 1) 0) - max a (E.getD j 0)) := by
    rw [Finset.range_eq_Ico,
      ← Finset.sum_Ico_consecutive _ (Nat.zero_le i0) (show i0 ≤ N by omega),
      ← Finset.sum_Ico_consecutive _ (show i0 ≤ d2 by omega) (show d2 ≤ N by omega)]
    ring
  have hmid : ∑ j ∈ Finset.Ico i0 d2,
      vals.getD j 0 * max 0 (min b (E.getD (j + 1) 0) - max a (E.getD j 0))
      = ∑ t ∈ Finset.range m,
          vals.getD (i0 + t) 0
            * max 0 (min b (E.getD (i0 + t + 1) 0) - max a (E.getD (i0 + t) 0)) := by
    rw [Finset.sum_Ico_eq_sum_range]
  rw [hL]
  unfold bandIntegral
  rw [← hN, hsplit, hlow0, hhigh0, zero_add, add_zero, hmid]
  apply Finset.sum_congr rfl
  intro t ht
  have htm : t < m := Finset.mem_range.mp ht
  rw [hterm t htm]

/-! ### Surface-level correctness -/

lemma Grid.map_congr {α β : Type} (g : Grid α) (f f' : α → β)
    (h : ∀ v ∈ g.nodes, f v = f' v) : g.map f = g.map f' := by
  cases g with
  | one l =>
    simp only [Grid.map, Grid.one.injEq]
    exact List.map_congr_left (fun v hv => h v (by simpa [Grid.nodes] using hv))
  | two l =>
    simp only [Grid.map, Grid.two.injEq]
    apply List.map_congr_left
    intro row hrow
    apply List.map_congr_left
    intro v hv
    apply h
    simp only [Grid.nodes, List.mem_flatten]
    exact ⟨row, hrow, hv⟩

/-- For a band whose rest frame lies strictly inside the tabulated energy
range, `get_surface` succeeds on the primordial table and produces the clipped
integral at each node. -/
lemma get_surface_primordial_inside (log_T : List ℚ) (log_nH : Option (List ℚ))
    (prim : Grid (List ℚ)) (met : Option (Grid (List ℚ))) (ebin : List ℚ)
    (z e_min e_max : ℚ) (hs : ebin.Pairwise (· < ·))
    (hpos : 0 < e_min * (1 + z))
    (hlo : ebin.getD 0 0 < e_min * (1 + z))
    (hab : e_min * (1 + z) ≤ e_max * (1 + z))
    (hhi : e_max * (1 + z) < ebin.getLastD 0) :
    get_surface (XrayEmissivityIntegrator.init log_T log_nH prim met ebin z)
        .primordial e_min e_max true
      = .ok (prim.map (fun vals =>
          nodeIntegral vals ebin (npDiff ebin) (e_min * (1 + z)) (e_max * (1 + z)))) := by
  have hEne : ebin ≠ [] := by
    intro h
    subst h
    simp only [List.getD] at hlo
    simp only [List.getLastD] at hhi
    simp at hlo hhi
    linarith
  have h1 : 1 ≤ npDigitize (e_min * (1 + z)) ebin :=
    npDigitize_pos _ _ hEne (le_of_lt hlo)
  have h3 : npDigitize (e_max * (1 + z)) ebin < ebin.length :=
    npDigitize_lt_length _ _ hEne hhi
  have h2 : npDigitize (e_min * (1 + z)) ebin ≤ npDigitize (e_max * (1 + z)) ebin :=
    npDigitize_mono _ _ _ hab
  have hbr := bracket_spec ebin (e_min * (1 + z)) (e_max * (1 + z)) h1 h3 h2
  have hbpos : 0 < e_max * (1 + z) := lt_of_lt_of_le hpos hab
  have hnot : ¬ ((e_min * (1 + z) - ebin.getD 0 0) / (e_min * (1 + z)) < -(1/1000) ∨
      (e_max * (1 + z) - ebin.getLastD 0) / (e_max * (1 + z)) > 1/1000) := by
    push_neg
    constructor
    · have hq : 0 < (e_min * (1 + z) - ebin.getD 0 0) / (e_min * (1 + z)) :=
        div_pos (by linarith) hpos
      linarith
    · have hq : (e_max * (1 + z) - ebin.getLastD 0) / (e_max * (1 + z)) < 0 :=
        div_neg_of_neg_of_pos (by linarith) hbpos
      linarith
  have hsne : pySlice (npDiff ebin)
      (bracket ebin (e_min * (1 + z)) (e_max * (1 + z))).1
      (bracket ebin (e_min * (1 + z)) (e_max * (1 + z))).2 ≠ [] := by
    rw [hbr]
    apply List.ne_nil_of_length_pos
    rw [pySlice_length, npDiff_length]
    simp only
    omega
  simp only [get_surface, XrayEmissivityIntegrator.init]
  rw [if_neg hnot]
  split
  · rename_i heq
    exact absurd heq hsne
  · rfl

/-- C1: for every loaded table and requested band whose rest-frame image lies
strictly inside the table's energy range (strictly below the last bin edge),
`get_interpolator` (lines 110-119) brackets the band, copies the bin widths,
shrinks the first by `e_min - ebin[e_is]` and the last by `ebin[e_ie] - e_max`,
multiplies each bin value by its width and sums over the energy axis, so the
resulting surface is exactly the integral of the piecewise-constant tabulated
emissivity over the requested band, at every grid node. -/
theorem C1_clipped_surface_is_exact_band_integral
    (log_T : List ℚ) (log_nH : Option (List ℚ)) (prim : Grid (List ℚ))
    (met : Option (Grid (List ℚ))) (ebin : List ℚ) (z e_min e_max : ℚ)
    (hs : ebin.Pairwise (· < ·))
    (hnodes : ∀ v ∈ prim.nodes, v.length + 1 = ebin.length)
    (hpos : 0 < e_min * (1 + z))
    (hlo : ebin.getD 0 0 < e_min * (1 + z))
    (hab : e_min * (1 + z) ≤ e_max * (1 + z))
    (hhi : e_max * (1 + z) < ebin.getLastD 0) :
    get_surface (XrayEmissivityIntegrator.init log_T log_nH prim met ebin z)
        .primordial e_min e_max true
      = .ok (prim.map (fun vals =>
          bandIntegral vals ebin (e_min * (1 + z)) (e_max * (1 + z)))) := by
  rw [get_surface_primordial_inside log_T log_nH prim met ebin z e_min e_max
    hs hpos hlo hab hhi]
  exact congrArg Except.ok (Grid.map_congr prim _ _ (fun v hv =>
    nodeIntegral_eq_bandIntegral v ebin (e_min * (1 + z)) (e_max * (1 + z))
      hs (hnodes v hv) hlo hab hhi))

/-- Witness for C1: the spec's synthetic table `logT = [6,7,8]`,
`E = [0.1, 1, 10]` keV, constant per-bin emissivity `1e-23`, band
`[0.5, 5]` keV at redshift 0; the surface is
`1e-23 * ((1 - 0.5) + (5 - 1))` at every node. -/
theorem C1_clipped_surface_is_exact_band_integral_witness :
    get_surface (XrayEmissivityIntegrator.init [6, 7, 8] none
        (.one [[1/10^23, 1/10^23], [1/10^23, 1/10^23], [1/10^23, 1/10^23]]) none
        [1/10, 1, 10] 0) .primordial (1/2) 5 true
      = .ok (.one [1/10^23 * ((1 - 1/2) + (5 - 1)),
                   1/10^23 * ((1 - 1/2) + (5 - 1)),
                   1/10^23 * ((1 - 1/2) + (5 - 1))]) := by
  have h := C1_clipped_surface_is_exact_band_integral [6, 7, 8] none
    (.one [[1/10^23, 1/10^23], [1/10^23, 1/10^23], [1/10^23, 1/10^23]]) none
    [1/10, 1, 10] 0 (1/2) 5
    (by norm_num [List.pairwise_cons])
    (by intro v hv; simp only [Grid.nodes] at hv; fin_cases hv <;> rfl)
    (by norm_num)
    (by norm_num [show ([1/10, 1, 10] : List ℚ).getD 0 0 = 1/10 from rfl])
    (by norm_num)
    (by norm_num [show ([1/10, 1, 10] : List ℚ).getLastD 0 = 10 from rfl])
  rw [h]
  simp only [Grid.map, List.map, bandIntegral]
  norm_num [Finset.sum_range_succ, List.getD_cons_zero, List.getD_cons_succ,
    min_def, max_def]

/-- C3: three exact-bin identities of the clipped integral at redshift 0
(so the rest-frame band equals the requested band): a single bin spanning
exactly the band integrates to value times width with no shrinkage; a band
spanning exactly two adjacent bins integrates to `v1*w1 + v2*w2`; a band
strictly inside one bin integrates to `v*(e_max - e_min)`, strictly less than
`v*W` for positive `v`. -/
theorem C3_exact_bin_identities :
    (∀ v e1 e2 : ℚ, e1 < e2 →
      nodeIntegral [v] [e1, e2] (npDiff [e1, e2]) e1 e2 = v * (e2 - e1))
    ∧ (∀ v1 v2 a b c : ℚ, a < b → b < c →
      nodeIntegral [v1, v2] [a, b, c] (npDiff [a, b, c]) a c
        = v1 * (b - a) + v2 * (c - b))
    ∧ (∀ v w1 w2 e1 e2 : ℚ, w1 < e1 → e1 ≤ e2 → e2 < w2 →
      nodeIntegral [v] [w1, w2] (npDiff [w1, w2]) e1 e2 = v * (e2 - e1)
      ∧ (0 < v → v * (e2 - e1) < v * (w2 - w1))) := by
  refine ⟨?_, ?_, ?_⟩
  · intro v e1 e2 h12
    have hd1 : npDigitize e1 [e1, e2] = 1 := by
      simp [npDigitize, List.countP_cons, (by linarith : ¬ (e2 ≤ e1))]
    have hd2 : npDigitize e2 [e1, e2] = 2 := by
      simp [npDigitize, List.countP_cons, (by linarith : e1 ≤ e2)]
    have hbr : bracket [e1, e2] e1 e2 = (0, 1) := by
      unfold bracket
      rw [hd1, hd2]
      simp [npClip]
    rw [nodeIntegral_def, clippedWidths_def, hbr]
    simp [pySlice, npDiff, subFirst, subLast, dot]
  · intro v1 v2 a b c hab hbc
    have hd1 : npDigitize a [a, b, c] = 1 := by
      simp [npDigitize, List.countP_cons, (by linarith : ¬ (b ≤ a)),
        (by linarith : ¬ (c ≤ a))]
    have hd2 : npDigitize c [a, b, c] = 3 := by
      simp [npDigitize, List.countP_cons, (by linarith : a ≤ c),
        (by linarith : b ≤ c)]
    have hbr : bracket [a, b, c] a c = (0, 2) := by
      unfold bracket
      rw [hd1, hd2]
      simp [npClip]
    rw [nodeIntegral_def, clippedWidths_def, hbr]
    simp [pySlice, npDiff, subFirst, subLast, dot]
  · intro v w1 w2 e1 e2 h1 h12 h2
    have hd1 : npDigitize e1 [w1, w2] = 1 := by
      simp [npDigitize, List.countP_cons, (by linarith : w1 ≤ e1),
        (by linarith : ¬ (w2 ≤ e1))]
    have hd2 : npDigitize e2 [w1, w2] = 1 := by
      simp [npDigitize, List.countP_cons, (by linarith : w1 ≤ e2),
        (by linarith : ¬ (w2 ≤ e2))]
    have hbr : bracket [w1, w2] e1 e2 = (0, 1) := by
      unfold bracket
      rw [hd1, hd2]
      simp [npClip]
    constructor
    · rw [nodeIntegral_def, clippedWidths_def, hbr]
      simp [pySlice, npDiff, subFirst, subLast, dot]
    · intro hv
      apply mul_lt_mul_of_pos_left _ hv
      linarith

/-- Witness for C3: concrete instances of the three identities. -/
theorem C3_exact_bin_identities_witness :
    nodeIntegral [2] [1, 3] (npDiff [1, 3]) 1 3 = 2 * (3 - 1)
    ∧ nodeIntegral [5, 7] [1, 2, 3] (npDiff [1, 2, 3]) 1 3
        = 5 * (2 - 1) + 7 * (3 - 2)
    ∧ nodeIntegral [2] [0, 10] (npDiff [0, 10]) 3 4 = 2 * (4 - 3)
    ∧ (2:ℚ) * (4 - 3) < 2 * (10 - 0) :=
  ⟨C3_exact_bin_identities.1 2 1 3 (by norm_num),
   C3_exact_bin_identities.2.1 5 7 1 2 3 (by norm_num) (by norm_num),
   (C3_exact_bin_identities.2.2 2 0 10 3 4 (by norm_num) (by norm_num) (by norm_num)).1,
   (C3_exact_bin_identities.2.2 2 0 10 3 4 (by norm_num) (by norm_num) (by norm_num)).2
     (by norm_num)⟩

/-! ### Error behaviour of the bounds check -/

lemma get_interpolator_error_iff (self : XrayEmissivityIntegrator)
    (data_type : EmissKind) (e_min e_max : ℚ) (energy : Bool) (err : XrayError) :
    get_interpolator self data_type e_min e_max energy = .error err
      ↔ get_surface self data_type e_min e_max energy = .error err := by
  unfold get_interpolator
  cases h : get_surface self data_type e_min e_max energy <;>
    simp [Except.map, h]

lemma get_surface_energyBounds_iff (self : XrayEmissivityIntegrator)
    (e_min e_max : ℚ) (energy : Bool) :
    get_surface self .primordial e_min e_max energy
      = .error (.energyBounds (self.ebin.getD 0 0) (self.ebin.getLastD 0))
    ↔ ((e_min * (1 + self.redshift) - self.ebin.getD 0 0)
          / (e_min * (1 + self.redshift)) < -(1/1000)
       ∨ (e_max * (1 + self.redshift) - self.ebin.getLastD 0)
          / (e_max * (1 + self.redshift)) > 1/1000) := by
  unfold get_surface
  simp only
  by_cases hc : (e_min * (1 + self.redshift) - self.ebin.getD 0 0)
        / (e_min * (1 + self.redshift)) < -(1/1000)
      ∨ (e_max * (1 + self.redshift) - self.ebin.getLastD 0)
        / (e_max * (1 + self.redshift)) > 1/1000
  · rw [if_pos hc]
    exact iff_of_true rfl hc
  · rw [if_neg hc]
    refine iff_of_false ?_ hc
    split
    · intro h
      exact XrayError.noConfusion (Except.error.inj h)
    · intro h
      exact Except.noConfusion h

/-- C2: for every redshift and band, `get_interpolator` converts the band to
the rest frame by multiplying by `(1 + z)` and raises
`EnergyBoundsException(ebin[0], ebin[-1])` — carrying the table's first and
last edges — exactly when the rest-frame band falls below the first edge or
above the last edge by more than a relative tolerance of `1e-3` (relative to
the requested rest-frame energy); a band within the tolerance never raises
this exception. -/
theorem C2_energy_bounds_check_iff
    (log_T : List ℚ) (log_nH : Option (List ℚ)) (prim : Grid (List ℚ))
    (met : Option (Grid (List ℚ))) (ebin : List ℚ) (z e_min e_max : ℚ)
    (hmin : 0 < e_min * (1 + z)) (hmax : 0 < e_max * (1 + z)) :
    get_interpolator (XrayEmissivityIntegrator.init log_T log_nH prim met ebin z)
        .primordial e_min e_max true
      = .error (.energyBounds (ebin.getD 0 0) (ebin.getLastD 0))
    ↔ (ebin.getD 0 0 - e_min * (1 + z) > (1/1000) * (e_min * (1 + z))
       ∨ e_max * (1 + z) - ebin.getLastD 0 > (1/1000) * (e_max * (1 + z))) := by
  rw [get_interpolator_error_iff]
  have h := get_surface_energyBounds_iff
    (XrayEmissivityIntegrator.init log_T log_nH prim met ebin z) e_min e_max true
  simp only [XrayEmissivityIntegrator.init] at h
  simp only [XrayEmissivityIntegrator.init]
  rw [h]
  apply or_congr
  · rw [div_lt_iff₀ hmin]
    constructor <;> intro <;> linarith
  · rw [gt_iff_lt, gt_iff_lt, lt_div_iff₀ hmax]

/-- Witness for C2: for the table `E = [1, 2, 10]` keV at redshift 0 the band
`[1, 11]` exceeds the last edge by 1 keV (relative error 1/11 > 1e-3) and
raises, while the band `[1, 10.009]` is within tolerance and does not. -/
theorem C2_energy_bounds_check_iff_witness :
    (get_interpolator (XrayEmissivityIntegrator.init [6, 7] none
        (.one [[1, 1], [1, 1]]) none [1, 2, 10] 0) .primordial 1 11 true
      = .error (.energyBounds (([1, 2, 10] : List ℚ).getD 0 0)
          (([1, 2, 10] : List ℚ).getLastD 0)))
    ∧ ¬ (get_interpolator (XrayEmissivityIntegrator.init [6, 7] none
        (.one [[1, 1], [1, 1]]) none [1, 2, 10] 0) .primordial 1 (10009/1000) true
      = .error (.energyBounds (([1, 2, 10] : List ℚ).getD 0 0)
          (([1, 2, 10] : List ℚ).getLastD 0))) := by
  constructor
  · exact (C2_energy_bounds_check_iff [6, 7] none (.one [[1, 1], [1, 1]]) none
      [1, 2, 10] 0 1 11 (by norm_num) (by norm_num)).mpr
      (Or.inr (by norm_num [show ([1, 2, 10] : List ℚ).getLastD 0 = 10 from rfl]))
  · intro hcontra
    have := (C2_energy_bounds_check_iff [6, 7] none (.one [[1, 1], [1, 1]]) none
      [1, 2, 10] 0 1 (10009/1000) (by norm_num) (by norm_num)).mp hcontra
    rcases this with h | h
    · rw [show ([1, 2, 10] : List ℚ).getD 0 0 = 1 from rfl] at h
      norm_num at h
    · rw [show ([1, 2, 10] : List ℚ).getLastD 0 = 10 from rfl] at h
      norm_num at h

/-- C10: a rest-frame `e_min` at or above the table's last edge that still
passes the (tolerant) bounds check makes the bracketing indices clamp to
`e_is = e_ie = ebin.size - 1`, so the sliced width vector `dE[e_is:e_ie]` is
empty and `my_dE[0]` fails with an index error: `get_interpolator` neither
returns an interpolator nor raises `EnergyBoundsException`. -/
theorem C10_band_at_last_edge_index_error
    (log_T : List ℚ) (log_nH : Option (List ℚ)) (prim : Grid (List ℚ))
    (met : Option (Grid (List ℚ))) (ebin : List ℚ) (z e_min e_max : ℚ)
    (hs : ebin.Pairwise (· < ·)) (hne : ebin ≠ [])
    (hpos1 : 0 < e_min * (1 + z)) (hpos2 : 0 < e_max * (1 + z))
    (hge : ebin.getLastD 0 ≤ e_min * (1 + z))
    (hab : e_min * (1 + z) ≤ e_max * (1 + z))
    (htol : e_max * (1 + z) - ebin.getLastD 0 ≤ (1/1000) * (e_max * (1 + z))) :
    bracket ebin (e_min * (1 + z)) (e_max * (1 + z))
        = (ebin.length - 1, ebin.length - 1)
    ∧ pySlice (npDiff ebin) (ebin.length - 1) (ebin.length - 1) = []
    ∧ get_interpolator (XrayEmissivityIntegrator.init log_T log_nH prim met ebin z)
        .primordial e_min e_max true = .error .indexOutOfRange := by
  have hlen : 1 ≤ ebin.length := by
    cases ebin with
    | nil => exact absurd rfl hne
    | cons a t => simp
  have hd1 : npDigitize (e_min * (1 + z)) ebin = ebin.length :=
    npDigitize_eq_length _ _ hs hge
  have hd2 : npDigitize (e_max * (1 + z)) ebin = ebin.length :=
    npDigitize_eq_length _ _ hs (le_trans hge hab)
  have hbr : bracket ebin (e_min * (1 + z)) (e_max * (1 + z))
      = (ebin.length - 1, ebin.length - 1) := by
    unfold bracket npClip
    rw [hd1, hd2]
    simp only [Prod.mk.injEq]
    constructor <;> omega
  have hsl : pySlice (npDiff ebin) (ebin.length - 1) (ebin.length - 1) = [] := by
    simp [pySlice]
  refine ⟨hbr, hsl, ?_⟩
  rw [get_interpolator_error_iff]
  have hE0 : ebin.getD 0 0 ≤ ebin.getLastD 0 := by
    rw [getLastD_eq_getD]
    exact getD_mono ebin hs (by omega) (by omega)
  have hnot : ¬ ((e_min * (1 + z) - ebin.getD 0 0) / (e_min * (1 + z)) < -(1/1000)
      ∨ (e_max * (1 + z) - ebin.getLastD 0) / (e_max * (1 + z)) > 1/1000) := by
    push_neg
    constructor
    · have hq : 0 ≤ (e_min * (1 + z) - ebin.getD 0 0) / (e_min * (1 + z)) :=
        div_nonneg (by linarith) (le_of_lt hpos1)
      linarith
    · rw [div_le_iff₀ hpos2]
      linarith
  unfold get_surface
  simp only [XrayEmissivityIntegrator.init]
  rw [if_neg hnot, hbr]
  simp only [hsl]

/-- Witness for C10: table `E = [1, 2, 10]` keV at redshift 0 with
`e_min = e_max = 10` (the last edge): the bounds check passes but the sliced
width vector is empty and the call fails with the index error. -/
theorem C10_band_at_last_edge_index_error_witness :
    bracket [1, 2, 10] (10 * (1 + 0)) (10 * (1 + 0)) = (2, 2)
    ∧ pySlice (npDiff [1, 2, 10]) 2 2 = []
    ∧ get_interpolator (XrayEmissivityIntegrator.init [6, 7] none
        (.one [[1, 1], [1, 1]]) none [1, 2, 10] 0)
        .primordial 10 10 true = .error .indexOutOfRange := by
  have h := C10_band_at_last_edge_index_error [6, 7] none (.one [[1, 1], [1, 1]])
    none [1, 2, 10] 0 10 10
    (by norm_num [List.pairwise_cons]) (by simp) (by norm_num) (by norm_num)
    (by norm_num [show ([1, 2, 10] : List ℚ).getLastD 0 = 10 from rfl])
    (by norm_num)
    (by norm_num [show ([1, 2, 10] : List ℚ).getLastD 0 = 10 from rfl])
  simpa using h

/-- C8: the integrator precomputes, from the `N+1` bin edges, the widths
`dE[i] = E[i+1] - E[i]` and the midpoint energies
`emid[i] = 0.5*(E[i] + E[i+1])` converted to erg, and a photon-count call
(`energy=False`) integrates the tabulated values divided bin-wise by `emid`,
i.e. equals the energy-mode call on the pre-divided table; with `energy=True`
the data is used unchanged. -/
theorem C8_photon_mode_divides_by_midpoint_energy :
    (∀ (ebin : List ℚ) (i : ℕ), i + 1 < ebin.length →
      (npDiff ebin).getD i 0 = ebin.getD (i + 1) 0 - ebin.getD i 0)
    ∧ (∀ (ebin : List ℚ) (i : ℕ), i + 1 < ebin.length →
      (npMid ebin).getD i 0
        = (1/2) * (ebin.getD i 0 + ebin.getD (i + 1) 0) * keV_in_erg)
    ∧ (∀ (log_T : List ℚ) (log_nH : Option (List ℚ)) (prim : Grid (List ℚ))
        (met : Option (Grid (List ℚ))) (ebin : List ℚ) (z e_min e_max : ℚ),
      get_surface (XrayEmissivityIntegrator.init log_T log_nH prim met ebin z)
          .primordial e_min e_max false
        = get_surface (XrayEmissivityIntegrator.init log_T log_nH
            (prim.map (fun v => List.zipWith (· / ·) v (npMid ebin))) met ebin z)
            .primordial e_min e_max true) := by
  refine ⟨npDiff_getD, ?_, ?_⟩
  · intro ebin i hi
    have hit : i < ebin.tail.length := by
      simp only [List.length_tail]
      omega
    have hmlen : i < (npMid ebin).length := by
      simp only [npMid, List.length_map, List.length_zipWith, List.length_tail]
      omega
    have hzlen : i < (List.zipWith (fun a b => (1 / 2) * (a + b)) ebin.tail ebin).length := by
      simp only [List.length_zipWith, List.length_tail]
      omega
    rw [List.getD_eq_getElem _ _ hmlen, List.getD_eq_getElem _ _ (by omega : i < ebin.length),
      List.getD_eq_getElem _ _ hi]
    simp only [npMid]
    rw [List.getElem_map, List.getElem_zipWith, List.getElem_tail]
    ring
  · intro log_T log_nH prim met ebin z e_min e_max
    rfl

/-- Witness for C8: widths and erg midpoints of `E = [1, 2, 10]`, and the
photon-mode identity at a concrete table and band. -/
theorem C8_photon_mode_divides_by_midpoint_energy_witness :
    (npDiff [1, 2, 10]).getD 0 0
        = ([1, 2, 10] : List ℚ).getD 1 0 - ([1, 2, 10] : List ℚ).getD 0 0
    ∧ (npMid [1, 2, 10]).getD 1 0
        = (1/2) * (([1, 2, 10] : List ℚ).getD 1 0 + ([1, 2, 10] : List ℚ).getD 2 0)
            * keV_in_erg
    ∧ get_surface (XrayEmissivityIntegrator.init [6, 7] none (.one [[3, 4], [5, 6]])
          none [1, 2, 10] 0) .primordial 1 5 false
        = get_surface (XrayEmissivityIntegrator.init [6, 7] none
            ((Grid.one [[3, 4], [5, 6]]).map
              (fun v => List.zipWith (· / ·) v (npMid [1, 2, 10])))
            none [1, 2, 10] 0) .primordial 1 5 true :=
  ⟨C8_photon_mode_divides_by_midpoint_energy.1 [1, 2, 10] 0 (by norm_num),
   C8_photon_mode_divides_by_midpoint_energy.2.1 [1, 2, 10] 1 (by norm_num),
   C8_photon_mode_divides_by_midpoint_energy.2.2 [6, 7] none (.one [[3, 4], [5, 6]])
     none [1, 2, 10] 0 1 5⟩

/-- C9: `get_interpolator` leaves the integrator state unchanged — every
stored array and the redshift are identical before and after the call (the
width vector is clipped only on a `.copy()`, the photon-mode division builds
a new array) — so a repeated call with the same arguments returns an
interpolator built over identical data. -/
theorem C9_get_interpolator_leaves_state_unchanged
    (self : XrayEmissivityIntegrator) (data_type : EmissKind)
    (e_min e_max : ℚ) (energy : Bool) :
    (get_interpolator_st self data_type e_min e_max energy).2.log_T = self.log_T
    ∧ (get_interpolator_st self data_type e_min e_max energy).2.log_nH = self.log_nH
    ∧ (get_interpolator_st self data_type e_min e_max energy).2.emissivity_primordial
        = self.emissivity_primordial
    ∧ (get_interpolator_st self data_type e_min e_max energy).2.emissivity_metals
        = self.emissivity_metals
    ∧ (get_interpolator_st self data_type e_min e_max energy).2.ebin = self.ebin
    ∧ (get_interpolator_st self data_type e_min e_max energy).2.dE = self.dE
    ∧ (get_interpolator_st self data_type e_min e_max energy).2.emid = self.emid
    ∧ (get_interpolator_st self data_type e_min e_max energy).2.redshift = self.redshift
    ∧ (get_interpolator_st self data_type e_min e_max energy).2 = self
    ∧ (get_interpolator_st ((get_interpolator_st self data_type e_min e_max energy).2)
          data_type e_min e_max energy).1
        = (get_interpolator_st self data_type e_min e_max energy).1 :=
  ⟨rfl, rfl, rfl, rfl, rfl, rfl, rfl, rfl, rfl, rfl⟩

/-- C5 counterexample: with a present data file and valid inputs, the
function-level API returns `None` for the valid table identifier "apec"
(the code's guard accepts only "cloudy"). -/
theorem C5_apec_returns_none :
    calculate_xray_emissivity [0] [1] [0] false "apec"
      (fun _ _ => some 0) (fun _ _ => some 0) = none := by
  rw [calculate_xray_emissivity, if_pos (by decide)]

/-- C5 amended: only for `table_type = "cloudy"` does
`calculate_xray_emissivity` return an emissivity array (of the input shape,
tagged `erg*cm**3/s`); for any other table type, "apec" included, it prints a
message and returns `None`. -/
theorem C5_cloudy_returns_array (lognH Temperature gas_metallicity_host : List ℝ)
    (use_metallicity : Bool) (em_0 em_Z : ℝ → ℝ → FVal) :
    (∃ arr, calculate_xray_emissivity lognH Temperature gas_metallicity_host
        use_metallicity "cloudy" em_0 em_Z = some arr
      ∧ arr.values.length = lognH.length ∧ arr.units = "erg*cm**3/s")
    ∧ ∀ table_type : String, table_type ≠ "cloudy" →
        calculate_xray_emissivity lognH Temperature gas_metallicity_host
          use_metallicity table_type em_0 em_Z = none := by
  constructor
  · refine ⟨emissivity_field em_0 em_Z use_metallicity lognH
      (Temperature.map (Real.logb 10)) gas_metallicity_host, ?_, ?_, rfl⟩
    · rw [calculate_xray_emissivity, if_neg (by simp)]
    · simp [emissivity_field]
  · intro table_type ht
    rw [calculate_xray_emissivity, if_pos ht]

/-- Witness for C5 (amended): a concrete one-cell call with "cloudy" yields
an array of length 1. -/
theorem C5_cloudy_returns_array_witness :
    (∃ arr, calculate_xray_emissivity [0] [1] [0] false "cloudy"
        (fun _ _ => some 0) (fun _ _ => some 0) = some arr
      ∧ arr.values.length = 1 ∧ arr.units = "erg*cm**3/s")
    ∧ calculate_xray_emissivity [0] [1] [0] false "apec"
        (fun _ _ => some 0) (fun _ _ => some 0) = none := by
  constructor
  · obtain ⟨arr, h1, h2, h3⟩ := (C5_cloudy_returns_array [0] [1] [0] false
      (fun _ _ => some 0) (fun _ _ => some 0)).1
    exact ⟨arr, h1, by simpa using h2, h3⟩
  · exact (C5_cloudy_returns_array [0] [1] [0] false
      (fun _ _ => some 0) (fun _ _ => some 0)).2 "apec" (by decide)

/-- C4: per cell, the assembled emissivity is `10^em_0(lognH, log10 T)`, plus
`Z * 10^em_Z(...)` when metals are requested; a NaN sum is replaced by exactly
0 before the `(10^lognH)^2` normalization is applied, the result is tagged
`erg*cm**3/s` and has the shape of the inputs, and NaN never reaches the
caller and never raises. -/
theorem C4_emissivity_field_nan_policy
    (lognH Temperature gas_metallicity_host : List ℝ) (use_metallicity : Bool)
    (em_0 em_Z : ℝ → ℝ → FVal) :
    ∃ arr, calculate_xray_emissivity lognH Temperature gas_metallicity_host
        use_metallicity "cloudy" em_0 em_Z = some arr
    ∧ arr.units = "erg*cm**3/s"
    ∧ arr.values.length = lognH.length
    ∧ ∀ i, i < lognH.length →
        ∀ tot : FVal,
          tot = (if use_metallicity then
              fadd (fpow10 (em_0 (lognH.getD i 0)
                  ((Temperature.map (Real.logb 10)).getD i 0)))
                (fscale (gas_metallicity_host.getD i 0)
                  (fpow10 (em_Z (lognH.getD i 0)
                    ((Temperature.map (Real.logb 10)).getD i 0))))
            else fpow10 (em_0 (lognH.getD i 0)
              ((Temperature.map (Real.logb 10)).getD i 0))) →
          (tot = none → arr.values.getD i 0 = 0)
          ∧ ∀ v : ℝ, tot = some v →
              arr.values.getD i 0 = ((10 : ℝ) ^ lognH.getD i 0) ^ 2 * v := by
  refine ⟨emissivity_field em_0 em_Z use_metallicity lognH
    (Temperature.map (Real.logb 10)) gas_metallicity_host, ?_, rfl, ?_, ?_⟩
  · rw [calculate_xray_emissivity, if_neg (by simp)]
  · simp [emissivity_field]
  · intro i hi tot htot
    have hlen : i < (emissivity_field em_0 em_Z use_metallicity lognH
        (Temperature.map (Real.logb 10)) gas_metallicity_host).values.length := by
      simp [emissivity_field]
      omega
    have hval : (emissivity_field em_0 em_Z use_metallicity lognH
        (Temperature.map (Real.logb 10)) gas_metallicity_host).values.getD i 0
        = ((10 : ℝ) ^ lognH.getD i 0) ^ 2 * fixnan tot := by
      rw [List.getD_eq_getElem _ _ hlen]
      simp only [emissivity_field]
      rw [List.getElem_map, List.getElem_range, htot]
    constructor
    · intro hnan
      rw [hval, hnan]
      simp [fixnan]
    · intro v hv
      rw [hval, hv]
      simp [fixnan]

/-- Witness for C4: a one-cell catalog whose interpolator returns NaN yields
exactly 0 for that cell. -/
theorem C4_emissivity_field_nan_policy_witness :
    ∃ arr, calculate_xray_emissivity [0] [1] [0] false "cloudy"
        (fun _ _ => none) (fun _ _ => none) = some arr
    ∧ arr.units = "erg*cm**3/s"
    ∧ arr.values.length = 1
    ∧ arr.values.getD 0 0 = 0 := by
  obtain ⟨arr, h1, h2, h3, h4⟩ := C4_emissivity_field_nan_policy [0] [1] [0] false
    (fun _ _ => none) (fun _ _ => none)
  refine ⟨arr, h1, h2, by simpa using h3, ?_⟩
  exact (h4 0 (by norm_num) none rfl).1 rfl

/-! ### The clamped linear interpolator (modelled from the spec) -/

lemma clampR_idem (lo hi : ℝ) (h : lo ≤ hi) (x : ℝ) :
    clampR lo hi (clampR lo hi x) = clampR lo hi x := by
  unfold clampR
  have h1 : min (max lo (min x hi)) hi = max lo (min x hi) :=
    min_eq_left (max_le h (min_le_right x hi))
  rw [h1, ← max_assoc, max_self]

lemma clampR_of_lt_lo (lo hi : ℝ) (h : lo ≤ hi) (x : ℝ) (hx : x < lo) :
    clampR lo hi x = lo := by
  unfold clampR
  rw [min_eq_left (le_trans (le_of_lt hx) h), max_eq_left (le_of_lt hx)]

lemma clampR_of_hi_lt (lo hi : ℝ) (h : lo ≤ hi) (x : ℝ) (hx : hi < x) :
    clampR lo hi x = hi := by
  unfold clampR
  rw [min_eq_right (le_of_lt hx), max_eq_right h]

lemma unilinEval_clamp (table : List ℝ) (t0 t1 : ℚ) (h : (t0 : ℝ) ≤ (t1 : ℝ))
    (x : ℝ) : unilinEval table t0 t1 (clampR t0 t1 x) = unilinEval table t0 t1 x := by
  simp only [unilinEval, clampR_idem _ _ h x]

/-- Evaluating the uniform-grid interpolator at its `j`-th node returns the
`j`-th table entry exactly. -/
lemma unilinEval_node (table : List ℝ) (x0 x1 : ℚ) (hx : x0 < x1)
    (hn : 2 ≤ table.length) (j : ℕ) (hj : j < table.length) :
    unilinEval table x0 x1
      ((x0 : ℝ) + j * (((x1 : ℝ) - (x0 : ℝ)) / ((table.length : ℝ) - 1)))
      = table.getD j 0 := by
  have hn1 : (1 : ℝ) ≤ (table.length : ℝ) - 1 := by
    have h2 : (2 : ℝ) ≤ (table.length : ℝ) := by exact_mod_cast hn
    linarith
  have hxR : (x0 : ℝ) < (x1 : ℝ) := by exact_mod_cast hx
  have hstep : 0 < ((x1 : ℝ) - (x0 : ℝ)) / ((table.length : ℝ) - 1) :=
    div_pos (by linarith) (by linarith)
  have hjle : (j : ℝ) ≤ (table.length : ℝ) - 1 := by
    have hj' : j ≤ table.length - 1 := by omega
    have hcast : ((table.length - 1 : ℕ) : ℝ) = (table.length : ℝ) - 1 := by
      push_cast [Nat.cast_sub (by omega : 1 ≤ table.length)]
      ring
    calc (j : ℝ) ≤ ((table.length - 1 : ℕ) : ℝ) := by exact_mod_cast hj'
      _ = (table.length : ℝ) - 1 := hcast
  have hnode_lo : (x0 : ℝ) ≤ (x0 : ℝ)
      + j * (((x1 : ℝ) - (x0 : ℝ)) / ((table.length : ℝ) - 1)) := by
    have : 0 ≤ (j : ℝ) * (((x1 : ℝ) - (x0 : ℝ)) / ((table.length : ℝ) - 1)) :=
      mul_nonneg (Nat.cast_nonneg j) (le_of_lt hstep)
    linarith
  have hfull : ((table.length : ℝ) - 1)
      * (((x1 : ℝ) - (x0 : ℝ)) / ((table.length : ℝ) - 1)) = (x1 : ℝ) - (x0 : ℝ) := by
    field_simp
  have hnode_hi : (x0 : ℝ)
      + j * (((x1 : ℝ) - (x0 : ℝ)) / ((table.length : ℝ) - 1)) ≤ (x1 : ℝ) := by
    have hm : (j : ℝ) * (((x1 : ℝ) - (x0 : ℝ)) / ((table.length : ℝ) - 1))
        ≤ ((table.length : ℝ) - 1) * (((x1 : ℝ) - (x0 : ℝ)) / ((table.length : ℝ) - 1)) :=
      mul_le_mul_of_nonneg_right hjle (le_of_lt hstep)
    rw [hfull] at hm
    linarith
  have hclamp : clampR (x0 : ℝ) (x1 : ℝ)
      ((x0 : ℝ) + j * (((x1 : ℝ) - (x0 : ℝ)) / ((table.length : ℝ) - 1)))
      = (x0 : ℝ) + j * (((x1 : ℝ) - (x0 : ℝ)) / ((table.length : ℝ) - 1)) := by
    unfold clampR
    rw [min_eq_left hnode_hi, max_eq_right hnode_lo]
  have hquot : ((x0 : ℝ) + j * (((x1 : ℝ) - (x0 : ℝ)) / ((table.length : ℝ) - 1))
      - (x0 : ℝ)) / (((x1 : ℝ) - (x0 : ℝ)) / ((table.length : ℝ) - 1)) = (j : ℝ) := by
    have hrw : (x0 : ℝ) + j * (((x1 : ℝ) - (x0 : ℝ)) / ((table.length : ℝ) - 1))
        - (x0 : ℝ) = j * (((x1 : ℝ) - (x0 : ℝ)) / ((table.length : ℝ) - 1)) := by
      ring
    rw [hrw, mul_div_cancel_right₀ _ (ne_of_gt hstep)]
  simp only [unilinEval]
  rw [if_neg (by omega), if_neg (by omega), hclamp, hquot, Int.floor_natCast]
  rw [Int.toNat_natCast]
  by_cases hjn : j ≤ table.length - 2
  · rw [min_eq_left hjn]
    have hxp : ((x0 : ℝ) + j * (((x1 : ℝ) - (x0 : ℝ)) / ((table.length : ℝ) - 1))
        - (x0 : ℝ) - (j : ℝ) * (((x1 : ℝ) - (x0 : ℝ)) / ((table.length : ℝ) - 1)))
        / (((x1 : ℝ) - (x0 : ℝ)) / ((table.length : ℝ) - 1)) = 0 := by
      rw [show (x0 : ℝ) + j * (((x1 : ℝ) - (x0 : ℝ)) / ((table.length : ℝ) - 1))
        - (x0 : ℝ) - (j : ℝ) * (((x1 : ℝ) - (x0 : ℝ)) / ((table.length : ℝ) - 1))
        = 0 from by ring]
      exact zero_div _
    rw [hxp]
    simp
  · have hj1 : j = table.length - 1 := by omega
    subst hj1
    rw [min_eq_right (by omega : table.length - 2 ≤ table.length - 1)]
    have hc1 : ((table.length - 1 : ℕ) : ℝ) = (table.length : ℝ) - 1 := by
      push_cast [Nat.cast_sub (by omega : 1 ≤ table.length)]
      ring
    have hc2 : ((table.length - 2 : ℕ) : ℝ) = (table.length : ℝ) - 2 := by
      push_cast [Nat.cast_sub (by omega : 2 ≤ table.length)]
      ring
    have hxp : ((x0 : ℝ) + (table.length - 1 : ℕ)
        * (((x1 : ℝ) - (x0 : ℝ)) / ((table.length : ℝ) - 1))
        - (x0 : ℝ) - ((table.length - 2 : ℕ) : ℝ)
        * (((x1 : ℝ) - (x0 : ℝ)) / ((table.length : ℝ) - 1)))
        / (((x1 : ℝ) - (x0 : ℝ)) / ((table.length : ℝ) - 1)) = 1 := by
      rw [hc1, hc2]
      rw [show (x0 : ℝ) + ((table.length : ℝ) - 1)
        * (((x1 : ℝ) - (x0 : ℝ)) / ((table.length : ℝ) - 1))
        - (x0 : ℝ) - ((table.length : ℝ) - 2)
        * (((x1 : ℝ) - (x0 : ℝ)) / ((table.length : ℝ) - 1))
        = ((x1 : ℝ) - (x0 : ℝ)) / ((table.length : ℝ) - 1) from by ring]
      exact div_self (ne_of_gt hstep)
    rw [hxp]
    have hidx : table.length - 2 + 1 = table.length - 1 := by omega
    rw [hidx]
    simp

/-- Evaluating the composed bilinear interpolator at a grid node returns the
table entry exactly. -/
lemma bilinEval_node (table : List (List ℝ)) (n0 n1 t0 t1 : ℚ) (m : ℕ)
    (hn : n0 < n1) (ht : t0 < t1) (hrows : 2 ≤ table.length) (hm : 2 ≤ m)
    (hrect : ∀ r ∈ table, r.length = m) (i j : ℕ)
    (hi : i < table.length) (hj : j < m) :
    bilinEval table n0 n1 t0 t1
      ((n0 : ℝ) + i * (((n1 : ℝ) - (n0 : ℝ)) / ((table.length : ℝ) - 1)))
      ((t0 : ℝ) + j * (((t1 : ℝ) - (t0 : ℝ)) / ((m : ℝ) - 1)))
      = (table.getD i []).getD j 0 := by
  unfold bilinEval
  have hmaplen : (table.map (fun row => unilinEval row t0 t1
      ((t0 : ℝ) + j * (((t1 : ℝ) - (t0 : ℝ)) / ((m : ℝ) - 1))))).length
      = table.length := List.length_map _ _
  have houter := unilinEval_node
    (table.map (fun row => unilinEval row t0 t1
      ((t0 : ℝ) + j * (((t1 : ℝ) - (t0 : ℝ)) / ((m : ℝ) - 1)))))
    n0 n1 hn (by rw [hmaplen]; exact hrows) i (by rw [hmaplen]; exact hi)
  rw [hmaplen] at houter
  rw [houter]
  rw [List.getD_eq_getElem _ _ (by rw [List.length_map]; exact hi), List.getElem_map]
  have hrowlen : table[i].length = m := hrect _ (List.getElem_mem hi)
  have hinner := unilinEval_node table[i] t0 t1 ht (by rw [hrowlen]; exact hm)
    j (by rw [hrowlen]; exact hj)
  rw [hrowlen] at hinner
  rw [hinner, List.getD_eq_getElem _ _ hi]

/-- C7: domain clamping of the returned interpolators (modelled from the
spec, since yt's interpolator classes are external to this repository): a
query below `t0` evaluates like `t0`, a query above `t1` evaluates like `t1`,
and a 2-D query evaluates like its componentwise clamp to the grid rectangle
— its nearest boundary point — so out-of-grid queries never extrapolate; the
evaluators are total functions, so they never raise. -/
theorem C7_truncate_clamps_out_of_grid_queries :
    (∀ (table : List ℝ) (t0 t1 : ℚ) (a x : ℝ), (t0 : ℝ) ≤ (t1 : ℝ) →
      ((x < (t0 : ℝ) →
        (Interpolator.unilinear table t0 t1 true).evalAt a x
          = (Interpolator.unilinear table t0 t1 true).evalAt a (t0 : ℝ))
       ∧ ((t1 : ℝ) < x →
        (Interpolator.unilinear table t0 t1 true).evalAt a x
          = (Interpolator.unilinear table t0 t1 true).evalAt a (t1 : ℝ))))
    ∧ (∀ (table : List (List ℝ)) (n0 n1 t0 t1 : ℚ) (u v : ℝ),
        (n0 : ℝ) ≤ (n1 : ℝ) → (t0 : ℝ) ≤ (t1 : ℝ) →
        (Interpolator.bilinear table n0 n1 t0 t1 true).evalAt u v
          = (Interpolator.bilinear table n0 n1 t0 t1 true).evalAt
              (clampR (n0 : ℝ) (n1 : ℝ) u) (clampR (t0 : ℝ) (t1 : ℝ) v)) := by
  constructor
  · intro table t0 t1 a x h
    constructor
    · intro hx
      show unilinEval table t0 t1 x = unilinEval table t0 t1 (t0 : ℝ)
      rw [← unilinEval_clamp table t0 t1 h x, clampR_of_lt_lo _ _ h x hx]
    · intro hx
      show unilinEval table t0 t1 x = unilinEval table t0 t1 (t1 : ℝ)
      rw [← unilinEval_clamp table t0 t1 h x, clampR_of_hi_lt _ _ h x hx]
  · intro table n0 n1 t0 t1 u v hn ht
    show bilinEval table n0 n1 t0 t1 u v
      = bilinEval table n0 n1 t0 t1 (clampR (n0 : ℝ) (n1 : ℝ) u)
          (clampR (t0 : ℝ) (t1 : ℝ) v)
    unfold bilinEval
    rw [← unilinEval_clamp _ n0 n1 hn u]
    congr 1
    apply List.map_congr_left
    intro row _
    rw [unilinEval_clamp row t0 t1 ht v]

/-- Witness for C7: out-of-grid queries on a concrete unilinear and bilinear
interpolator evaluate like the nearest boundary point. -/
theorem C7_truncate_clamps_out_of_grid_queries_witness :
    ((Interpolator.unilinear [0, 1] 1 2 true).evalAt 0 0
      = (Interpolator.unilinear [0, 1] 1 2 true).evalAt 0 ((1 : ℚ) : ℝ))
    ∧ ((Interpolator.unilinear [0, 1] 1 2 true).evalAt 0 3
      = (Interpolator.unilinear [0, 1] 1 2 true).evalAt 0 ((2 : ℚ) : ℝ))
    ∧ ((Interpolator.bilinear [[0, 1], [2, 3]] 1 2 1 2 true).evalAt 0 5
      = (Interpolator.bilinear [[0, 1], [2, 3]] 1 2 1 2 true).evalAt
          (clampR ((1 : ℚ) : ℝ) ((2 : ℚ) : ℝ) 0)
          (clampR ((1 : ℚ) : ℝ) ((2 : ℚ) : ℝ) 5)) :=
  ⟨(C7_truncate_clamps_out_of_grid_queries.1 [0, 1] 1 2 0 0 (by norm_num)).1
      (by norm_num),
   (C7_truncate_clamps_out_of_grid_queries.1 [0, 1] 1 2 0 3 (by norm_num)).2
      (by norm_num),
   C7_truncate_clamps_out_of_grid_queries.2 [[0, 1], [2, 3]] 1 2 1 2 0 5
      (by norm_num) (by norm_num)⟩

/-! ### The returned interpolator and the log-space round trip -/

lemma get_interpolator_ok_one (self : XrayEmissivityIntegrator)
    (data_type : EmissKind) (e_min e_max : ℚ) (energy : Bool) (svals : List ℚ)
    (h : get_surface self data_type e_min e_max energy = .ok (.one svals)) :
    get_interpolator self data_type e_min e_max energy
      = .ok (.unilinear (svals.map fun q : ℚ => Real.logb 10 (q : ℝ))
          (self.log_T.getD 0 0) (self.log_T.getLastD 0) true) := by
  unfold get_interpolator
  rw [h]
  rfl

lemma get_interpolator_ok_two (self : XrayEmissivityIntegrator)
    (data_type : EmissKind) (e_min e_max : ℚ) (energy : Bool)
    (svalss : List (List ℚ))
    (h : get_surface self data_type e_min e_max energy = .ok (.two svalss)) :
    get_interpolator self data_type e_min e_max energy
      = .ok (.bilinear (svalss.map (List.map fun q : ℚ => Real.logb 10 (q : ℝ)))
          ((self.log_nH.getD []).getD 0 0) ((self.log_nH.getD []).getLastD 0)
          (self.log_T.getD 0 0) (self.log_T.getLastD 0) true) := by
  unfold get_interpolator
  rw [h]
  rfl

/-- C6: the interpolator returned by `get_interpolator` is built over the
log10 of the summed surface — unilinear over `log_T` for `ndim == 2` data,
bilinear over `(log_nH, log_T)` for `ndim == 3` data (the interpolator grid
is the uniform grid over the stored end points, modelled from the spec) — its
value at a grid node is the log10 of the integrated emissivity there, and
`10 ^ value` recovers the pre-log summed integral exactly (the real-number
model of "within floating-point tolerance") whenever that integral is
positive. -/
theorem C6_log10_storage_roundtrip :
    (∀ (self : XrayEmissivityIntegrator) (data_type : EmissKind)
      (e_min e_max : ℚ) (energy : Bool) (svals : List ℚ) (j : ℕ) (a : ℝ),
      get_surface self data_type e_min e_max energy = .ok (.one svals) →
      2 ≤ svals.length →
      self.log_T.getD 0 0 < self.log_T.getLastD 0 →
      j < svals.length →
      0 < svals.getD j 0 →
      get_interpolator self data_type e_min e_max energy
          = .ok (.unilinear (svals.map fun q : ℚ => Real.logb 10 (q : ℝ))
              (self.log_T.getD 0 0) (self.log_T.getLastD 0) true)
      ∧ (Interpolator.unilinear (svals.map fun q : ℚ => Real.logb 10 (q : ℝ))
            (self.log_T.getD 0 0) (self.log_T.getLastD 0) true).evalAt a
            ((self.log_T.getD 0 0 : ℝ) + j * (((self.log_T.getLastD 0 : ℝ)
              - (self.log_T.getD 0 0 : ℝ)) / ((svals.length : ℝ) - 1)))
          = Real.logb 10 ((svals.getD j 0 : ℚ) : ℝ)
      ∧ (10 : ℝ) ^ ((Interpolator.unilinear
            (svals.map fun q : ℚ => Real.logb 10 (q : ℝ))
            (self.log_T.getD 0 0) (self.log_T.getLastD 0) true).evalAt a
            ((self.log_T.getD 0 0 : ℝ) + j * (((self.log_T.getLastD 0 : ℝ)
              - (self.log_T.getD 0 0 : ℝ)) / ((svals.length : ℝ) - 1))))
          = ((svals.getD j 0 : ℚ) : ℝ))
    ∧ (∀ (self : XrayEmissivityIntegrator) (data_type : EmissKind)
      (e_min e_max : ℚ) (energy : Bool) (svalss : List (List ℚ)) (m i j : ℕ),
      get_surface self data_type e_min e_max energy = .ok (.two svalss) →
      2 ≤ svalss.length →
      2 ≤ m →
      (∀ r ∈ svalss, r.length = m) →
      (self.log_nH.getD []).getD 0 0 < (self.log_nH.getD []).getLastD 0 →
      self.log_T.getD 0 0 < self.log_T.getLastD 0 →
      i < svalss.length →
      j < m →
      0 < (svalss.getD i []).getD j 0 →
      get_interpolator self data_type e_min e_max energy
          = .ok (.bilinear
              (svalss.map (List.map fun q : ℚ => Real.logb 10 (q : ℝ)))
              ((self.log_nH.getD []).getD 0 0) ((self.log_nH.getD []).getLastD 0)
              (self.log_T.getD 0 0) (self.log_T.getLastD 0) true)
      ∧ (Interpolator.bilinear
            (svalss.map (List.map fun q : ℚ => Real.logb 10 (q : ℝ)))
            ((self.log_nH.getD []).getD 0 0) ((self.log_nH.getD []).getLastD 0)
            (self.log_T.getD 0 0) (self.log_T.getLastD 0) true).evalAt
            (((self.log_nH.getD []).getD 0 0 : ℝ)
              + i * ((((self.log_nH.getD []).getLastD 0 : ℝ)
                - ((self.log_nH.getD []).getD 0 0 : ℝ)) / ((svalss.length : ℝ) - 1)))
            ((self.log_T.getD 0 0 : ℝ) + j * (((self.log_T.getLastD 0 : ℝ)
              - (self.log_T.getD 0 0 : ℝ)) / ((m : ℝ) - 1)))
          = Real.logb 10 (((svalss.getD i []).getD j 0 : ℚ) : ℝ)
      ∧ (10 : ℝ) ^ ((Interpolator.bilinear
            (svalss.map (List.map fun q : ℚ => Real.logb 10 (q : ℝ)))
            ((self.log_nH.getD []).getD 0 0) ((self.log_nH.getD []).getLastD 0)
            (self.log_T.getD 0 0) (self.log_T.getLastD 0) true).evalAt
            (((self.log_nH.getD []).getD 0 0 : ℝ)
              + i * ((((self.log_nH.getD []).getLastD 0 : ℝ)
                - ((self.log_nH.getD []).getD 0 0 : ℝ)) / ((svalss.length : ℝ) - 1)))
            ((self.log_T.getD 0 0 : ℝ) + j * (((self.log_T.getLastD 0 : ℝ)
              - (self.log_T.getD 0 0 : ℝ)) / ((m : ℝ) - 1))))
          = (((svalss.getD i []).getD j 0 : ℚ) : ℝ)) := by
  constructor
  · intro self data_type e_min e_max energy svals j a hsurf hn hT hj hv
    have hlen : (svals.map fun q : ℚ => Real.logb 10 (q : ℝ)).length
        = svals.length := List.length_map _ _
    have hnode := unilinEval_node (svals.map fun q : ℚ => Real.logb 10 (q : ℝ))
      (self.log_T.getD 0 0) (self.log_T.getLastD 0) hT
      (by rw [hlen]; exact hn) j (by rw [hlen]; exact hj)
    rw [hlen] at hnode
    have hentry : (svals.map fun q : ℚ => Real.logb 10 (q : ℝ)).getD j 0
        = Real.logb 10 ((svals.getD j 0 : ℚ) : ℝ) := by
      rw [List.getD_eq_getElem _ _ (by rw [hlen]; exact hj), List.getElem_map,
        List.getD_eq_getElem _ _ hj]
    have heval : (Interpolator.unilinear
        (svals.map fun q : ℚ => Real.logb 10 (q : ℝ))
        (self.log_T.getD 0 0) (self.log_T.getLastD 0) true).evalAt a
        ((self.log_T.getD 0 0 : ℝ) + j * (((self.log_T.getLastD 0 : ℝ)
          - (self.log_T.getD 0 0 : ℝ)) / ((svals.length : ℝ) - 1)))
        = Real.logb 10 ((svals.getD j 0 : ℚ) : ℝ) := by
      show unilinEval _ _ _ _ = _
      rw [hnode, hentry]
    refine ⟨get_interpolator_ok_one self data_type e_min e_max energy svals hsurf,
      heval, ?_⟩
    rw [heval]
    exact Real.rpow_logb (by norm_num) (by norm_num)
      (by exact_mod_cast hv)
  · intro self data_type e_min e_max energy svalss m i j hsurf hrows hm hrect
      hnH hT hi hj hv
    have hlen : (svalss.map (List.map fun q : ℚ => Real.logb 10 (q : ℝ))).length
        = svalss.length := List.length_map _ _
    have hrect' : ∀ r ∈ svalss.map (List.map fun q : ℚ => Real.logb 10 (q : ℝ)),
        r.length = m := by
      intro r hr
      rcases List.mem_map.mp hr with ⟨r0, hr0, rfl⟩
      rw [List.length_map]
      exact hrect r0 hr0
    have hnode := bilinEval_node
      (svalss.map (List.map fun q : ℚ => Real.logb 10 (q : ℝ)))
      ((self.log_nH.getD []).getD 0 0) ((self.log_nH.getD []).getLastD 0)
      (self.log_T.getD 0 0) (self.log_T.getLastD 0) m hnH hT
      (by rw [hlen]; exact hrows) hm hrect' i j (by rw [hlen]; exact hi) hj
    rw [hlen] at hnode
    have hjr : j < svalss[i].length := by
      rw [hrect _ (List.getElem_mem hi)]
      exact hj
    have hrow : (svalss.map (List.map fun q : ℚ => Real.logb 10 (q : ℝ))).getD i []
        = List.map (fun q : ℚ => Real.logb 10 (q : ℝ)) svalss[i] := by
      rw [List.getD_eq_getElem _ _ (by rw [hlen]; exact hi), List.getElem_map]
    have hentry : ((svalss.map (List.map fun q : ℚ => Real.logb 10 (q : ℝ))).getD
        i []).getD j 0 = Real.logb 10 (((svalss.getD i []).getD j 0 : ℚ) : ℝ) := by
      rw [hrow,
        List.getD_eq_getElem _ _ (by rw [List.length_map]; exact hjr),
        List.getElem_map, List.getD_eq_getElem _ _ hi,
        List.getD_eq_getElem _ _ hjr]
    have heval : (Interpolator.bilinear
        (svalss.map (List.map fun q : ℚ => Real.logb 10 (q : ℝ)))
        ((self.log_nH.getD []).getD 0 0) ((self.log_nH.getD []).getLastD 0)
        (self.log_T.getD 0 0) (self.log_T.getLastD 0) true).evalAt
        (((self.log_nH.getD []).getD 0 0 : ℝ)
          + i * ((((self.log_nH.getD []).getLastD 0 : ℝ)
            - ((self.log_nH.getD []).getD 0 0 : ℝ)) / ((svalss.length : ℝ) - 1)))
        ((self.log_T.getD 0 0 : ℝ) + j * (((self.log_T.getLastD 0 : ℝ)
          - (self.log_T.getD 0 0 : ℝ)) / ((m : ℝ) - 1)))
        = Real.logb 10 (((svalss.getD i []).getD j 0 : ℚ) : ℝ) := by
      show bilinEval _ _ _ _ _ _ _ = _
      rw [hnode, hentry]
    refine ⟨get_interpolator_ok_two self data_type e_min e_max energy svalss hsurf,
      heval, ?_⟩
    rw [heval]
    exact Real.rpow_logb (by norm_num) (by norm_num)
      (by exact_mod_cast hv)

lemma nodeIntegral_single_bin_band (v : ℚ) :
    nodeIntegral [v] [1, 4] (npDiff [1, 4]) (2 * (1 + 0)) (3 * (1 + 0)) = v := by
  have h := nodeIntegral_eq_bandIntegral [v] [1, 4] (2 * (1 + 0)) (3 * (1 + 0))
    (by norm_num [List.pairwise_cons]) (by simp)
    (by norm_num [show ([1, 4] : List ℚ).getD 0 0 = 1 from rfl])
    (by norm_num)
    (by norm_num [show ([1, 4] : List ℚ).getLastD 0 = 4 from rfl])
  rw [h]
  simp [bandIntegral, List.getD_cons_zero, List.getD_cons_succ]
  norm_num [min_def, max_def]

lemma get_surface_one_node_example :
    get_surface (XrayEmissivityIntegrator.init [6, 7] none (.one [[10], [100]])
        none [1, 4] 0) .primordial 2 3 true = .ok (.one [10, 100]) := by
  have h := get_surface_primordial_inside [6, 7] none (.one [[10], [100]]) none
    [1, 4] 0 2 3
    (by norm_num [List.pairwise_cons]) (by norm_num)
    (by norm_num [show ([1, 4] : List ℚ).getD 0 0 = 1 from rfl])
    (by norm_num)
    (by norm_num [show ([1, 4] : List ℚ).getLastD 0 = 4 from rfl])
  rw [h]
  simp only [Grid.map, List.map]
  rw [nodeIntegral_single_bin_band 10, nodeIntegral_single_bin_band 100]

lemma get_surface_two_node_example :
    get_surface (XrayEmissivityIntegrator.init [6, 7] (some [1, 2])
        (.two [[[10], [20]], [[30], [40]]]) none [1, 4] 0)
        .primordial 2 3 true = .ok (.two [[10, 20], [30, 40]]) := by
  have h := get_surface_primordial_inside [6, 7] (some [1, 2])
    (.two [[[10], [20]], [[30], [40]]]) none [1, 4] 0 2 3
    (by norm_num [List.pairwise_cons]) (by norm_num)
    (by norm_num [show ([1, 4] : List ℚ).getD 0 0 = 1 from rfl])
    (by norm_num)
    (by norm_num [show ([1, 4] : List ℚ).getLastD 0 = 4 from rfl])
  rw [h]
  simp only [Grid.map, List.map]
  rw [nodeIntegral_single_bin_band 10, nodeIntegral_single_bin_band 20,
    nodeIntegral_single_bin_band 30, nodeIntegral_single_bin_band 40]

/-- Witness for C6: a 1-D table with surface `[10, 100]` over `logT = [6, 7]`
and a 2-D table with surface `[[10, 20], [30, 40]]` over
`logNH = [1, 2], logT = [6, 7]`: at a grid node the interpolator holds the
log10 of the surface and `10 ^ value` recovers it. -/
theorem C6_log10_storage_roundtrip_witness :
    (get_interpolator (XrayEmissivityIntegrator.init [6, 7] none
        (.one [[10], [100]]) none [1, 4] 0) .primordial 2 3 true
      = .ok (.unilinear ([(10 : ℚ), 100].map fun q : ℚ => Real.logb 10 (q : ℝ))
          (([6, 7] : List ℚ).getD 0 0) (([6, 7] : List ℚ).getLastD 0) true))
    ∧ (10 : ℝ) ^ ((Interpolator.unilinear
          ([(10 : ℚ), 100].map fun q : ℚ => Real.logb 10 (q : ℝ))
          (([6, 7] : List ℚ).getD 0 0) (([6, 7] : List ℚ).getLastD 0) true).evalAt 0
          (((([6, 7] : List ℚ).getD 0 0 : ℚ) : ℝ) + ((0 : ℕ) : ℝ)
            * ((((([6, 7] : List ℚ).getLastD 0 : ℚ) : ℝ)
              - ((([6, 7] : List ℚ).getD 0 0 : ℚ) : ℝ))
              / ((([(10 : ℚ), 100] : List ℚ).length : ℝ) - 1))))
        = (((10 : ℚ) : ℝ))
    ∧ (get_interpolator (XrayEmissivityIntegrator.init [6, 7] (some [1, 2])
        (.two [[[10], [20]], [[30], [40]]]) none [1, 4] 0) .primordial 2 3 true
      = .ok (.bilinear
          (([[(10 : ℚ), 20], [30, 40]] : List (List ℚ)).map
            (List.map fun q : ℚ => Real.logb 10 (q : ℝ)))
          (([1, 2] : List ℚ).getD 0 0) (([1, 2] : List ℚ).getLastD 0)
          (([6, 7] : List ℚ).getD 0 0) (([6, 7] : List ℚ).getLastD 0) true))
    ∧ (10 : ℝ) ^ ((Interpolator.bilinear
          (([[(10 : ℚ), 20], [30, 40]] : List (List ℚ)).map
            (List.map fun q : ℚ => Real.logb 10 (q : ℝ)))
          (([1, 2] : List ℚ).getD 0 0) (([1, 2] : List ℚ).getLastD 0)
          (([6, 7] : List ℚ).getD 0 0) (([6, 7] : List ℚ).getLastD 0) true).evalAt
          (((([1, 2] : List ℚ).getD 0 0 : ℚ) : ℝ) + ((0 : ℕ) : ℝ)
            * ((((([1, 2] : List ℚ).getLastD 0 : ℚ) : ℝ)
              - ((([1, 2] : List ℚ).getD 0 0 : ℚ) : ℝ))
              / ((([[(10 : ℚ), 20], [30, 40]] : List (List ℚ)).length : ℝ) - 1)))
          (((([6, 7] : List ℚ).getD 0 0 : ℚ) : ℝ) + ((1 : ℕ) : ℝ)
            * ((((([6, 7] : List ℚ).getLastD 0 : ℚ) : ℝ)
              - ((([6, 7] : List ℚ).getD 0 0 : ℚ) : ℝ)) / (((2 : ℕ) : ℝ) - 1))))
        = (((20 : ℚ) : ℝ)) := by
  have h1 := C6_log10_storage_roundtrip.1
    (XrayEmissivityIntegrator.init [6, 7] none (.one [[10], [100]]) none [1, 4] 0)
    .primordial 2 3 true [10, 100] 0 0 get_surface_one_node_example
    (by norm_num)
    (show (6 : ℚ) < 7 by norm_num)
    (by norm_num)
    (show (0 : ℚ) < 10 by norm_num)
  have h2 := C6_log10_storage_roundtrip.2
    (XrayEmissivityIntegrator.init [6, 7] (some [1, 2])
      (.two [[[10], [20]], [[30], [40]]]) none [1, 4] 0)
    .primordial 2 3 true [[10, 20], [30, 40]] 2 0 1 get_surface_two_node_example
    (by norm_num) (by norm_num)
    (by intro r hr; fin_cases hr <;> rfl)
    (show (1 : ℚ) < 2 by norm_num)
    (show (6 : ℚ) < 7 by norm_num)
    (by norm_num) (by norm_num)
    (show (0 : ℚ) < 20 by norm_num)
  exact ⟨h1.1, h1.2.2, h2.1, h2.2.2⟩
